import Mathlib

/-! The scrollback view engine of happygrep.

A shallow embedding of the view engine of `happygrep.c` (record parsing,
batch reading, navigation, rendering decisions, resize) and theorems about it.

Conventions of the embedding

* `unsigned long` values are `Nat` below `2^64`; every arithmetic operation on
  them is reduced modulo `2^64` (`uadd`, `usub`, `to_ulong`).
* `int` values are `Int`; a conversion to `int` wraps to 32 bits (`to_int`).
* A C string is the list of its bytes before the terminator (`CStr`).
* A call either returns, trips an `assert` (the process aborts; the source does
  not define `NDEBUG`), or has undefined behaviour (`Run`).
* Calls that only write to the terminal (`wscrl`, `wmove`, `waddstr`,
  `redrawwin`, `wrefresh`, `update_title_win`, `logout`, and the `view->render`
  calls made while navigating) do not change `offset`, `lineno`, `lines`,
  `height` or the record store and are left out of the state functions;
  `default_render` itself is embedded as a function of the view and the row.
-/

namespace Happygrep

/-! ## Outcomes and machine integers -/

/-- Outcome of a call: it returned a value, an `assert` at the given source line
failed, the behaviour is undefined in C, or the process left through `exit`. -/
inductive Run (α : Type) where
  | ret (a : α)
  | abort (srcLine : Nat)
  | undef
  | exit (status : Nat)
deriving DecidableEq

/-- Sequencing of calls: the first outcome that is not a return ends the run. -/
def Run.bind {α β : Type} (r : Run α) (f : α → Run β) : Run β :=
  match r with
  | .ret a => f a
  | .abort n => .abort n
  | .undef => .undef
  | .exit s => .exit s

/-- Conversion of an integer value to `unsigned long` (64 bits). -/
def to_ulong (x : Int) : Nat := (x % 18446744073709551616).toNat

/-- Conversion of an integer value to `int` (32 bits, two's complement). -/
def to_int (x : Int) : Int := (x + 2147483648) % 4294967296 - 2147483648

/-- Addition of two `unsigned long` values. -/
def uadd (a b : Nat) : Nat := (a + b) % 18446744073709551616

/-- Subtraction of two `unsigned long` values. -/
def usub (a b : Nat) : Nat :=
  (a + 18446744073709551616 - b % 18446744073709551616) % 18446744073709551616

/-! ## Data model -/

/-- A C string: the bytes before the terminating NUL. -/
abbrev CStr := List Char

/-- The record `struct fileinfo`: `name[128]`, `content[128]`, `number[6]`. -/
structure fileinfo where
  name : CStr
  content : CStr
  number : CStr
deriving DecidableEq

/-- User action requests (`enum request`). -/
inductive request where
  | REQ_VIEW_MAIN
  | REQ_VIEW_CLOSE
  | REQ_SCREEN_RESIZE
  | REQ_OPEN_VIM
  | REQ_MOVE_PGDN
  | REQ_MOVE_PGUP
  | REQ_MOVE_HIGH
  | REQ_MOVE_LOW
  | REQ_MOVE_UP
  | REQ_MOVE_DOWN
deriving DecidableEq

/-- The fields of `struct view` that the engine computes with.
`line` holds the initialised slots of the line index, `alloc` is the number of
slots of its current allocation, and `pipe` is the producer stream as the
sequence of strings that successive `fgets` calls will return (`none` is a
NULL `FILE *`). -/
structure View where
  height : Int
  width : Int
  offset : Nat
  lineno : Nat
  lines : Nat
  line : List fileinfo
  alloc : Nat
  pipe : Option (List CStr)
deriving DecidableEq

/-- The field values are values of their C types, and the total is small enough
that `offset + height` does not wrap around `2^64`. -/
def View.wf (v : View) : Prop :=
  v.offset < 18446744073709551616 ∧ v.lineno < 18446744073709551616 ∧
  v.lines < 9223372036854775808 ∧
  -2147483648 ≤ v.height ∧ v.height < 2147483648

instance (v : View) : Decidable v.wf :=
  inferInstanceAs (Decidable (_ ∧ _))

/-- The view invariant of the specification, for a non-empty store:
`height ≥ 1`, `0 ≤ offset ≤ total - 1` and
`offset ≤ cursor ≤ min (offset + height - 1, total - 1)`. -/
def View.inv (v : View) : Prop :=
  1 ≤ v.height ∧ (v.offset : Int) ≤ v.lines - 1 ∧ v.offset ≤ v.lineno ∧
  (v.lineno : Int) ≤ min (v.offset + v.height - 1) (v.lines - 1)

instance (v : View) : Decidable v.inv :=
  inferInstanceAs (Decidable (_ ∧ _))

/-! ## Navigation -/

/-- The function `move_view` (lines 1042-1085). -/
def move_view (view : View) (lines : Int) : Run View :=
  let view := { view with offset := uadd view.offset (to_ulong lines) }
  if ¬ (view.offset < view.lines) then .abort 1048
  else if lines = 0 then .abort 1049
  else
    let view :=
      if view.lineno < view.offset then
        { view with lineno := view.offset }
      else if view.lineno ≥ uadd view.offset (to_ulong view.height) then
        { view with lineno := usub (uadd view.offset (to_ulong view.height)) 1 }
      else view
    if view.offset ≤ view.lineno ∧ view.lineno < view.lines then .ret view
    else .abort 1079

/-- The value of `tmpOffset` after the `switch` of `navigate_view_pg`
(lines 1002-1009); `none` when no case assigns it. -/
def navigate_view_pg_target (view : View) : request → Option Int
  | .REQ_MOVE_PGDN => some (to_int (uadd view.offset (to_ulong view.height)))
  | .REQ_MOVE_PGUP =>
      some (if view.offset ≥ to_ulong view.height
            then to_int (usub view.offset (to_ulong view.height)) else 0)
  | _ => none

/-- The function `navigate_view_pg` (lines 994-1040). -/
def navigate_view_pg (view : View) (req : request) : Run View :=
  match navigate_view_pg_target view req with
  | none => .undef
  | some tmpOffset =>
    let view := { view with lineno := 0 }
    if view.offset ≠ to_ulong tmpOffset then
      let steps := to_int (usub (to_ulong tmpOffset) view.offset)
      move_view view steps
    else .ret view

/-- The value of `steps` after the `switch` of `navigate_view`
(lines 1093-1113); `none` when no case assigns it. -/
def navigate_view_steps (view : View) : request → Option Int
  | .REQ_MOVE_UP => some (-1)
  | .REQ_MOVE_DOWN => some 1
  | .REQ_MOVE_HIGH => some (to_int (usub view.offset view.lineno))
  | .REQ_MOVE_LOW =>
      some (to_int (usub (usub (uadd (to_ulong view.height) view.offset) view.lineno) 1))
  | _ => none

/-- The adjustment of `steps` that `navigate_view` makes before it scrolls
(lines 1136-1151); `view` is the view after the cursor has moved. -/
def navigate_view_clamp (view : View) (steps : Int) : Int :=
  if steps < 0 ∧ to_ulong (to_int (-steps)) > view.offset then
    to_int (usub 0 view.offset)
  else if steps > 0 then
    if view.lineno = usub view.lines 1 ∧ view.lines > to_ulong view.height then
      let steps := to_int (usub (usub view.lines view.offset) 1)
      if steps ≥ view.height then to_int (steps - (view.height - 1)) else steps
    else steps
  else steps

/-- Where `navigate_view` stands when it stops computing on its own: it has
returned (with the message it reported, if any), or it is about to call
`move_view(view, steps)`. -/
inductive NavStep where
  | finished (view : View) (msg : Option String)
  | scroll (view : View) (steps : Int)
deriving DecidableEq

/-- The body of `navigate_view` up to its call of `move_view`
(lines 1087-1153 and 1159-1169). -/
def navigate_view_body (view : View) (req : request) : Run NavStep :=
  match navigate_view_steps view req with
  | none => .undef
  | some steps =>
    if steps ≤ 0 ∧ view.lineno = 0 then
      .ret (.finished view (some "already at first line"))
    else if steps ≥ 0 ∧ uadd view.lineno 1 = view.lines then
      .ret (.finished view (some "already at last line"))
    else
      let view := { view with lineno := uadd view.lineno (to_ulong steps) }
      if ¬ (view.lineno < view.lines) then .abort 1126
      else if view.lineno < view.offset ∨
          view.lineno ≥ uadd view.offset (to_ulong view.height) then
        .ret (.scroll view (navigate_view_clamp view steps))
      else .ret (.finished view none)

/-- The function `navigate_view` (lines 1087-1169): the new view and the
message passed to `report`, if any. -/
def navigate_view (view : View) (req : request) : Run (View × Option String) :=
  match navigate_view_body view req with
  | .ret (.finished v msg) => .ret (v, msg)
  | .ret (.scroll v steps) =>
      match move_view v steps with
      | .ret v2 => .ret (v2, none)
      | .abort n => .abort n
      | .undef => .undef
      | .exit s => .exit s
  | .abort n => .abort n
  | .undef => .undef
  | .exit s => .exit s

/-- Row `c` of the store lies in the window `[offset, offset + height - 1]`. -/
def View.shows (v : View) (c : Int) : Prop :=
  (v.offset : Int) ≤ c ∧ c ≤ v.offset + v.height - 1

instance (v : View) (c : Int) : Decidable (v.shows c) :=
  inferInstanceAs (Decidable (_ ∧ _))

/-- The view with its window and its cursor moved. -/
def View.moveTo (v : View) (offset cursor : Nat) : View :=
  { v with offset := offset, lineno := cursor }

/-! ## String helpers -/

/-- The function `string_ncopy(dst, src, dstlen)` (lines 134-139): the string
left in `dst`, the first `dstlen - 1` bytes of `src`. -/
def string_ncopy (src : CStr) (dstlen : Nat) : CStr := src.take (dstlen - 1)

/-- The function `strsplit(line, c)` (lines 704-715): the bytes before the
first `c`. The loop tests only for `c`, so without a `c` before the terminator
it reads past the end of the string. -/
def strsplit : CStr → Char → Run CStr
  | [], c => if c = Char.ofNat 0 then .ret [] else .undef
  | x :: xs, c => if x = c then .ret [] else (strsplit xs c).bind (fun w => .ret (x :: w))

/-- The library function `strchr(s, c)`: the suffix of `s` that starts at the
first `c`; `none` is the NULL result. -/
def strchr : CStr → Char → Option CStr
  | [], c => if c = Char.ofNat 0 then some [] else none
  | x :: xs, c => if x = c then some (x :: xs) else strchr xs c

/-- The library function `strncmp(a, b, n)`: zero when the first `n` bytes
(or the whole strings, when they end earlier) agree, else the difference of the
first pair of bytes that differ. -/
def strncmp : CStr → CStr → Nat → Int
  | _, _, 0 => 0
  | [], [], _ + 1 => 0
  | [], b :: _, _ + 1 => -(b.toNat : Int)
  | a :: _, [], _ + 1 => (a.toNat : Int)
  | a :: as, b :: bs, n + 1 =>
      if a = b then strncmp as bs n else (a.toNat : Int) - (b.toNat : Int)

/-- The library function `isspace` in the C locale: space, `\t`, `\n`, `\v`,
`\f`, `\r`. -/
def isspace (c : Char) : Bool := c = ' ' || (9 ≤ c.toNat && c.toNat ≤ 13)

/-- The global `opt_tab_size` (line 55). -/
def opt_tab_size : Int := 8

/-- The function `strlength` (lines 717-730): every tab counts `opt_tab_size`,
every other byte counts one. -/
def strlength : CStr → Int
  | [] => 0
  | c :: cs => (if c = '\t' then opt_tab_size else 1) + strlength cs

/-- The loop of `string_expand` (lines 764-775) from output position `size` on:
the bytes written to `dst` and the number of source bytes consumed. -/
def string_expand_from (dstlen tabsize : Nat) : CStr → Nat → CStr × Nat
  | [], _ => ([], 0)
  | c :: cs, size =>
    if ¬ (size < dstlen - 1) then ([], 0)
    else if c = '\t' then
      let expanded := tabsize - size % tabsize
      let expanded := if expanded + size ≥ dstlen - 1 then dstlen - size - 1 else expanded
      let r := string_expand_from dstlen tabsize cs (size + expanded)
      (List.replicate expanded ' ' ++ r.1, r.2 + 1)
    else
      let r := string_expand_from dstlen tabsize cs (size + 1)
      (c :: r.1, r.2 + 1)

/-- The function `string_expand(dst, dstlen, src, tabsize)` (lines 759-779): the
string left in `dst` and the returned `pos`. -/
def string_expand (dstlen : Nat) (src : CStr) (tabsize : Nat) : CStr × Nat :=
  string_expand_from dstlen tabsize src 0

/-! ## Reading records -/

/-- The function `default_read` (lines 781-805). `calloc` is taken to succeed.
The store write at line 791 needs a free slot in the allocation, and the scans
need their delimiters inside the string. -/
def default_read (view : View) (line : CStr) : Run View :=
  if line.length < 2 then .undef
  else
    let line := line.drop 2
    if ¬ (view.lines < view.alloc) then .undef
    else
      (strsplit line ':').bind fun name =>
      match strchr line ':' with
      | none => .undef
      | some e =>
        let e := e.drop 1
        (strsplit e ':').bind fun number =>
        match strchr e ':' with
        | none => .undef
        | some e2 =>
          let e2 := (e2.drop 1).dropWhile isspace
          .ret { view with
            line := view.line.take view.lines ++
              [{ name := string_ncopy name 128, number := string_ncopy number 6,
                 content := string_ncopy e2 128 }],
            lines := uadd view.lines 1 }

/-- The sentinel `top` of `update_view` (line 614). -/
def update_view_top : CStr := "Binary file".toList

/-- The `while` loop of `update_view` (lines 630-650) over the strings that
`fgets` returns, with the counter `lines`: the view, the strings left in the
stream, and whether `fgets` has reported the end of the stream. -/
def update_view_loop (view : View) : List CStr → Nat → Run (View × List CStr × Bool)
  | [], _ => .ret (view, [], true)
  | raw :: rest, lines =>
    let line := raw.take (raw.length - 1)
    if strncmp line update_view_top update_view_top.length = 0 then
      update_view_loop view rest lines
    else if (strchr line ':').isNone then
      update_view_loop view rest lines
    else
      match default_read view line with
      | .ret view2 =>
          if lines = 1 then .ret (view2, rest, false)
          else update_view_loop view2 rest (usub lines 1)
      | .abort n => .abort n
      | .undef => .undef
      | .exit s => .exit s

/-- The function `redraw_view_from` (lines 684-694): its assertion. -/
def redraw_view_from (view : View) (lineno : Int) : Run Unit :=
  if 0 ≤ lineno ∧ lineno < view.height then .ret () else .abort 686

/-- The function `update_view` (lines 607-682), with `realloc` taken to succeed
and a stream without read error: the new view and the returned flag. -/
def update_view (view : View) : Run (View × Bool) :=
  match view.pipe with
  | none => .ret (view, true)
  | some stream =>
    let lines := to_ulong view.height
    let redraw_from : Int :=
      if uadd view.offset (to_ulong view.height) ≥ view.lines
      then to_int (usub view.lines view.offset) else -1
    let view := { view with alloc := (8 * uadd view.lines lines % 18446744073709551616) / 8 }
    (update_view_loop view stream lines).bind fun r =>
      let view := r.1
      let redraw_from := if redraw_from > 0 then redraw_from - 1 else redraw_from
      (if redraw_from ≥ 0 then redraw_view_from view redraw_from else .ret ()).bind fun _ =>
        if r.2.2 then .ret ({ view with pipe := none }, false)
        else .ret ({ view with pipe := some r.2.1 }, true)

/-! ## Rendering -/

/-- The line types that `default_render` selects (`enum line_type`). -/
inductive line_type where
  | LINE_DEFAULT
  | LINE_CURSOR
  | LINE_STATUS
  | LINE_DELIMITER
  | LINE_TITLE_FOCUS
  | LINE_FILE_NAME
  | LINE_FILE_LINUM
  | LINE_FILE_LINCON
  | LINE_ERR
deriving DecidableEq

/-- The strings that `default_render` hands to the window for one row: the
name field at column 0, the number field at column 27, the content field at
column 36 (`none` when the function returns before it writes the content). -/
structure Row where
  type : line_type
  name : CStr
  number : CStr
  content : Option CStr
deriving DecidableEq

/-- The library function `waddnstr(win, str, n)`: at most `n` bytes of `str`,
all of it when `n` is negative. -/
def waddnstr (str : CStr) (n : Int) : CStr :=
  if n < 0 then str else str.take n.toNat

/-- The function `default_render` (lines 807-890): the returned flag and the
row it wrote. The row index is `offset + lineno` in `unsigned long`; a slot
below `view->lines` that was never written is an uninitialised pointer. -/
def default_render (view : View) (lineno : Nat) : Run (Bool × Option Row) :=
  let opt_file_name : Nat := 25
  if uadd view.offset lineno ≥ view.lines then .ret (false, none)
  else
    match view.line[uadd view.offset lineno]? with
    | none => .undef
    | some fileinfo =>
      if fileinfo.name = [] then .ret (false, none)
      else
        let type :=
          if uadd view.offset lineno = view.lineno then line_type.LINE_CURSOR
          else line_type.LINE_FILE_LINCON
        let namelen := fileinfo.name.length
        let name :=
          if namelen > opt_file_name then
            '~' :: (fileinfo.name.drop (namelen - opt_file_name)).take opt_file_name
          else fileinfo.name
        let col : Int := opt_file_name + 2 + 9
        let contentlen := strlength fileinfo.content
        let text := (string_expand 1024 fileinfo.content opt_tab_size.toNat).1
        if col + contentlen > view.width then
          let contentlen := view.width - col
          if contentlen < 0 then
            .ret (true, some { type := type, name := name, number := fileinfo.number,
                               content := none })
          else
            .ret (true, some { type := type, name := name, number := fileinfo.number,
                               content := some (waddnstr text (contentlen - 1) ++ ['~']) })
        else
          .ret (true, some { type := type, name := name, number := fileinfo.number,
                             content := some fileinfo.content })

/-! ## Resize and dispatch -/

/-- The function `resize_display` (lines 563-594); `y` and `x` are the rows and
columns that `getmaxyx(stdscr, ...)` reports. -/
def resize_display (base : View) (y x : Int) : View :=
  { base with height := to_int (to_int (y - 1) - 1), width := x }

/-- The function `redraw_view` (lines 696-700). -/
def redraw_view (view : View) : Run Unit := redraw_view_from view 0

/-- The function `redraw_display` (lines 596-605). -/
def redraw_display (view : View) (_clear : Bool) : Run Unit := redraw_view view

/-- The function `view_driver` (lines 921-963) called with the displayed view
(`display[current_view]`, which is `&main_view`); `y` and `x` are what
`getmaxyx` reports when the request is a resize. -/
def view_driver (view : View) (key : request) (y x : Int) : Run View :=
  match key with
  | .REQ_MOVE_HIGH | .REQ_MOVE_LOW | .REQ_MOVE_DOWN | .REQ_MOVE_UP =>
      (navigate_view view key).bind fun r => .ret r.1
  | .REQ_MOVE_PGDN | .REQ_MOVE_PGUP => navigate_view_pg view key
  | .REQ_VIEW_CLOSE => .exit 0
  | .REQ_OPEN_VIM => .ret view
  | .REQ_VIEW_MAIN => .ret view
  | .REQ_SCREEN_RESIZE =>
      let view := resize_display view y x
      (redraw_display view true).bind fun _ => .ret view

/-- A view with the given geometry; its records are left out, since navigation
and resize do not read them. -/
def mkView (total height offset cursor : Nat) : View :=
  { height := height, width := 80, offset := offset, lineno := cursor,
    lines := total, line := [], alloc := 0, pipe := none }

/-- The view that `begin_update` leaves (offset 0, no lines, no index) with
the given window size and producer stream. -/
def startView (height width : Int) (stream : List CStr) : View :=
  { height := height, width := width, offset := 0, lineno := 0, lines := 0,
    line := [], alloc := 0, pipe := some stream }

/-! ## Instrumented reading -/

/-- The two tests of the loop of `update_view` (lines 638-643) on a line whose
last byte has been stripped: true when the loop goes on to `view->read`, false
when it takes one of the two `continue` statements. -/
def update_view_keeps (line : CStr) : Bool :=
  !(decide (strncmp line update_view_top update_view_top.length = 0)) &&
    !(strchr line ':').isNone

/-- The value of `view->lines` at each call of `default_read` that the loop of
`update_view` (lines 630-650) makes, in order: the index at which that call
writes into the line index (line 791). The loop goes on after a call only when
the call returns. -/
def update_view_loop_writes (view : View) : List CStr → Nat → List Nat
  | [], _ => []
  | raw :: rest, lines =>
    let line := raw.take (raw.length - 1)
    if strncmp line update_view_top update_view_top.length = 0 then
      update_view_loop_writes view rest lines
    else if (strchr line ':').isNone then
      update_view_loop_writes view rest lines
    else
      view.lines ::
        (match default_read view line with
         | .ret view2 =>
             if lines = 1 then [] else update_view_loop_writes view2 rest (usub lines 1)
         | _ => [])

/-- The number of slots of the line index after the `realloc` of `update_view`
(line 624): `sizeof(*view->line) * (view->lines + lines)` bytes of 8-byte
pointers. -/
def update_view_capacity (view : View) : Nat :=
  (8 * uadd view.lines (to_ulong view.height) % 18446744073709551616) / 8

/-- The write indices of one call of `update_view` (lines 607-682). -/
def update_view_writes (view : View) : List Nat :=
  match view.pipe with
  | none => []
  | some stream =>
    update_view_loop_writes { view with alloc := update_view_capacity view } stream
      (to_ulong view.height)

/-- A stripped line on which both scans of `default_read` find their ':': it
has at least two bytes and at least two ':' after them. -/
def two_delimiters (line : CStr) : Bool :=
  decide (2 ≤ line.length) && decide (2 ≤ (line.drop 2).count ':')

/-! ## Machine arithmetic inside its range -/

theorem to_ulong_nonneg (x : Int) (h0 : 0 ≤ x) (h : x < 18446744073709551616) :
    to_ulong x = x.toNat := by
  unfold to_ulong; omega

theorem to_int_small (x : Int) (h0 : -2147483648 ≤ x) (h : x < 2147483648) : to_int x = x := by
  unfold to_int; omega

theorem uadd_to_ulong (a : Nat) (s : Int) (h0 : 0 ≤ a + s) (h1 : a + s < 18446744073709551616) :
    uadd a (to_ulong s) = (a + s).toNat := by
  unfold uadd to_ulong; omega

theorem uadd_small (a b : Nat) (h : a + b < 18446744073709551616) : uadd a b = a + b := by
  unfold uadd; omega

theorem usub_small (a b : Nat) (hb : b ≤ a) (ha : a < 18446744073709551616) :
    usub a b = a - b := by
  unfold usub; omega

/-- A difference of two `unsigned long` values read back as an `int`. -/
theorem to_int_usub (a b : Nat) (ha : a < 18446744073709551616) (hb : b < 18446744073709551616)
    (h0 : -2147483648 ≤ (a : Int) - b) (h1 : (a : Int) - b < 2147483648) :
    to_int (usub a b) = (a : Int) - b := by
  unfold usub to_int; omega

/-- The `steps` that `navigate_view_pg` computes from a `tmpOffset` that went
through an `int`: the truncation cancels. -/
theorem to_int_page_steps (x y : Nat) (h : Int) (hy : y < 18446744073709551616)
    (h1 : -2147483648 ≤ h) (h2 : h < 2147483648) (hxy : (x : Int) = y + h) :
    to_int (usub (to_ulong (to_int x)) y) = h := by
  unfold to_int usub to_ulong; omega

theorem to_ulong_page_ne (x y : Nat) (h : Int)
    (h1 : -2147483648 ≤ h) (h2 : h < 2147483648) (hxy : (x : Int) = y + h) (h0 : h ≠ 0) :
    to_ulong (to_int x) ≠ y := by
  unfold to_int to_ulong; omega

/-! ## Navigation: what each function computes -/

/-- A scroll by `s ≠ 0` rows that keeps the window start inside the store
returns, with the cursor pulled into the new window. -/
theorem move_view_eq (v : View) (s : Int) (hwf : v.wf) (hh : 1 ≤ v.height) (hs : s ≠ 0)
    (h0 : 0 ≤ v.offset + s) (h1 : v.offset + s < v.lines) (hl : v.lineno < v.lines) :
    move_view v s =
      .ret (v.moveTo (v.offset + s).toNat
        (max (v.offset + s) (min (v.lineno : Int) (v.offset + s + v.height - 1))).toNat) := by
  obtain ⟨w1, w2, w3, w4, w5⟩ := hwf
  unfold move_view View.moveTo
  simp only [uadd, usub, to_ulong, to_int]
  split_ifs <;> (try dsimp only at *) <;>
    first
    | omega
    | (simp only [Run.ret.injEq, View.mk.injEq, true_and, and_true]; omega)

theorem navigate_view_body_up (v : View) (hwf : v.wf) (hinv : v.inv) (h0 : v.lineno ≠ 0) :
    navigate_view_body v .REQ_MOVE_UP =
      .ret (if v.lineno = v.offset then .scroll (v.moveTo v.offset (v.lineno - 1)) (-1)
            else .finished (v.moveTo v.offset (v.lineno - 1)) none) := by
  obtain ⟨w1, w2, w3, w4, w5⟩ := hwf
  obtain ⟨i1, i2, i3, i4⟩ := hinv
  have e1 : uadd v.lineno (to_ulong (-1)) = v.lineno - 1 := by
    rw [uadd_to_ulong _ _ (by omega) (by omega)]; omega
  have e2 : uadd v.offset (to_ulong v.height) = v.offset + v.height.toNat := by
    rw [uadd_to_ulong _ _ (by omega) (by omega)]; omega
  have e3 : to_ulong (to_int (- -1)) = 1 := by decide
  simp only [navigate_view_body, navigate_view_steps, navigate_view_clamp, View.moveTo, e1, e2, e3]
  split_ifs <;> (try dsimp only at *) <;> omega

theorem navigate_view_clamp_down (v : View) (hwf : v.wf) (hh : 1 ≤ v.height)
    (hl : (v.lineno : Int) = v.offset + v.height) (hlt : v.lineno < v.lines) :
    navigate_view_clamp v 1 = 1 := by
  obtain ⟨w1, w2, w3, w4, w5⟩ := hwf
  have e4 : usub v.lines v.offset = v.lines - v.offset :=
    usub_small _ _ (by omega) (by omega)
  have e5 : usub (v.lines - v.offset) 1 = v.lines - v.offset - 1 :=
    usub_small _ _ (by omega) (by omega)
  have e3 : usub v.lines 1 = v.lines - 1 := usub_small _ _ (by omega) (by omega)
  unfold navigate_view_clamp
  rw [if_neg (by omega), if_pos (by omega), e3, e4, e5]
  by_cases c1 : v.lineno = v.lines - 1 ∧ v.lines > to_ulong v.height
  · have e6 : ((v.lines - v.offset - 1 : Nat) : Int) = v.height := by omega
    have e7 : v.height - (v.height - 1) = 1 := by omega
    rw [if_pos c1, e6]
    simp only [to_int_small v.height w4 w5, ge_iff_le, le_refl, if_true, e7]
    rfl
  · rw [if_neg c1]

theorem navigate_view_body_down (v : View) (hwf : v.wf) (hinv : v.inv)
    (h0 : v.lineno + 1 ≠ v.lines) :
    navigate_view_body v .REQ_MOVE_DOWN =
      .ret (if (v.lineno : Int) = v.offset + v.height - 1
            then .scroll (v.moveTo v.offset (v.lineno + 1)) 1
            else .finished (v.moveTo v.offset (v.lineno + 1)) none) := by
  have ec : (v.lineno : Int) = v.offset + v.height - 1 →
      navigate_view_clamp (v.moveTo v.offset (v.lineno + 1)) 1 = 1 := by
    intro h
    obtain ⟨w1, w2, w3, w4, w5⟩ := hwf
    obtain ⟨i1, i2, i3, i4⟩ := hinv
    refine navigate_view_clamp_down _ ⟨w1, ?_, w3, w4, w5⟩ i1 ?_ ?_ <;>
      simp only [View.moveTo] <;> omega
  obtain ⟨w1, w2, w3, w4, w5⟩ := hwf
  obtain ⟨i1, i2, i3, i4⟩ := hinv
  have e0 : uadd v.lineno 1 = v.lineno + 1 := uadd_small _ _ (by omega)
  have e1 : uadd v.lineno (to_ulong 1) = v.lineno + 1 := by
    rw [uadd_to_ulong _ _ (by omega) (by omega)]; omega
  have e4 : to_ulong v.height = v.height.toNat := to_ulong_nonneg _ (by omega) (by omega)
  have e2 : uadd v.offset v.height.toNat = v.offset + v.height.toNat :=
    uadd_small _ _ (by omega)
  simp only [View.moveTo] at ec ⊢
  simp only [navigate_view_body, navigate_view_steps, e0, e1, e4, e2]
  split_ifs <;> (try dsimp only at *) <;>
    first
    | omega
    | (rw [ec (by omega)])

/-! ## Single-step moves -/

theorem navigate_view_up_at_first (v : View) (h0 : v.lineno = 0) :
    navigate_view v .REQ_MOVE_UP = .ret (v, some "already at first line") := by
  simp [navigate_view, navigate_view_body, navigate_view_steps, h0]

theorem navigate_view_down_at_last (v : View) (hwf : v.wf) (h0 : v.lineno + 1 = v.lines) :
    navigate_view v .REQ_MOVE_DOWN = .ret (v, some "already at last line") := by
  obtain ⟨w1, w2, w3, w4, w5⟩ := hwf
  have : uadd v.lineno 1 = v.lines := by rw [uadd_small _ _ (by omega)]; exact h0
  simp [navigate_view, navigate_view_body, navigate_view_steps, this]

/-- MoveUp away from the first record: the cursor goes up one row, and the
window follows by one row when the cursor was on its first row. -/
theorem navigate_view_up (v : View) (hwf : v.wf) (hinv : v.inv) (h0 : v.lineno ≠ 0) :
    navigate_view v .REQ_MOVE_UP =
      .ret (v.moveTo (if v.shows (v.lineno - 1) then v.offset else v.offset - 1)
              (v.lineno - 1), none) := by
  have hb := navigate_view_body_up v hwf hinv h0
  obtain ⟨w1, w2, w3, w4, w5⟩ := hwf
  obtain ⟨i1, i2, i3, i4⟩ := hinv
  by_cases hc : v.lineno = v.offset
  · rw [if_pos hc] at hb
    have hm := move_view_eq (v.moveTo v.offset (v.lineno - 1)) (-1)
      ⟨w1, by simp only [View.moveTo]; omega, w3, w4, w5⟩ i1 (by decide)
      (by simp only [View.moveTo]; omega) (by simp only [View.moveTo]; omega)
      (by simp only [View.moveTo]; omega)
    have hs : ¬ v.shows (v.lineno - 1) := by simp only [View.shows]; omega
    simp only [navigate_view, hb, hm, if_neg hs]
    simp only [View.moveTo, Run.ret.injEq, Prod.mk.injEq, View.mk.injEq, true_and, and_true]
    omega
  · rw [if_neg hc] at hb
    have hs : v.shows (v.lineno - 1) := by simp only [View.shows]; omega
    simp only [navigate_view, hb, if_pos hs]

/-- MoveDown away from the last record: the cursor goes down one row, and the
window follows by one row when the cursor was on its last row. -/
theorem navigate_view_down (v : View) (hwf : v.wf) (hinv : v.inv)
    (h0 : v.lineno + 1 ≠ v.lines) :
    navigate_view v .REQ_MOVE_DOWN =
      .ret (v.moveTo (if v.shows (v.lineno + 1) then v.offset else v.offset + 1)
              (v.lineno + 1), none) := by
  have hb := navigate_view_body_down v hwf hinv h0
  obtain ⟨w1, w2, w3, w4, w5⟩ := hwf
  obtain ⟨i1, i2, i3, i4⟩ := hinv
  by_cases hc : (v.lineno : Int) = v.offset + v.height - 1
  · rw [if_pos hc] at hb
    have hm := move_view_eq (v.moveTo v.offset (v.lineno + 1)) 1
      ⟨w1, by simp only [View.moveTo]; omega, w3, w4, w5⟩ i1 (by decide)
      (by simp only [View.moveTo]; omega) (by simp only [View.moveTo]; omega)
      (by simp only [View.moveTo]; omega)
    have hs : ¬ v.shows (v.lineno + 1) := by simp only [View.shows]; omega
    simp only [navigate_view, hb, hm, if_neg hs]
    simp only [View.moveTo, Run.ret.injEq, Prod.mk.injEq, View.mk.injEq, true_and, and_true]
    omega
  · rw [if_neg hc] at hb
    have hs : v.shows (v.lineno + 1) := by simp only [View.shows]; omega
    simp only [navigate_view, hb, if_pos hs]

/-- The state after a single-step move satisfies the view invariant. -/
theorem inv_moveTo_up (v : View) (hinv : v.inv) (h0 : v.lineno ≠ 0) :
    (v.moveTo (if v.shows (v.lineno - 1) then v.offset else v.offset - 1)
      (v.lineno - 1)).inv ∧ (¬ v.shows (v.lineno - 1) → 1 ≤ v.offset) := by
  obtain ⟨i1, i2, i3, i4⟩ := hinv
  by_cases hs : v.shows (v.lineno - 1)
  · rw [if_pos hs]
    refine ⟨?_, fun h => absurd hs h⟩
    simp only [View.shows] at hs
    simp only [View.moveTo, View.inv]; omega
  · rw [if_neg hs]
    simp only [View.shows] at hs
    refine ⟨?_, fun _ => by omega⟩
    simp only [View.moveTo, View.inv]; omega

theorem inv_moveTo_down (v : View) (hinv : v.inv) (h0 : v.lineno + 1 ≠ v.lines) :
    (v.moveTo (if v.shows (v.lineno + 1) then v.offset else v.offset + 1)
      (v.lineno + 1)).inv := by
  obtain ⟨i1, i2, i3, i4⟩ := hinv
  by_cases hs : v.shows (v.lineno + 1)
  · rw [if_pos hs]
    simp only [View.shows] at hs
    simp only [View.moveTo, View.inv]; omega
  · rw [if_neg hs]
    simp only [View.shows] at hs
    simp only [View.moveTo, View.inv]; omega

/-- C4. On a store that satisfies the view invariant (which forces total > 0):
MoveUp at cursor 0 and MoveDown at cursor total - 1 change nothing and report
"already at first line" / "already at last line"; otherwise MoveUp gives cursor - 1 and
MoveDown gives cursor + 1, the offset moves by one row in the direction of the
move exactly when the new cursor is outside `[offset, offset + height - 1]` and
is unchanged otherwise, no assertion fails (the call returns), and the new state
satisfies the view invariant. -/
theorem navigate_view_single_step (v : View) (hwf : v.wf) (hinv : v.inv) :
    (v.lineno = 0 →
      navigate_view v .REQ_MOVE_UP = .ret (v, some "already at first line")) ∧
    (v.lineno + 1 = v.lines →
      navigate_view v .REQ_MOVE_DOWN = .ret (v, some "already at last line")) ∧
    (v.lineno ≠ 0 →
      navigate_view v .REQ_MOVE_UP =
        .ret (v.moveTo (if v.shows (v.lineno - 1) then v.offset else v.offset - 1)
                (v.lineno - 1), none) ∧
      (v.moveTo (if v.shows (v.lineno - 1) then v.offset else v.offset - 1)
                (v.lineno - 1)).inv ∧
      (¬ v.shows (v.lineno - 1) → 1 ≤ v.offset)) ∧
    (v.lineno + 1 ≠ v.lines →
      navigate_view v .REQ_MOVE_DOWN =
        .ret (v.moveTo (if v.shows (v.lineno + 1) then v.offset else v.offset + 1)
                (v.lineno + 1), none) ∧
      (v.moveTo (if v.shows (v.lineno + 1) then v.offset else v.offset + 1)
                (v.lineno + 1)).inv) :=
  ⟨navigate_view_up_at_first v, navigate_view_down_at_last v hwf,
   fun h0 => ⟨navigate_view_up v hwf hinv h0, inv_moveTo_up v hinv h0⟩,
   fun h0 => ⟨navigate_view_down v hwf hinv h0, inv_moveTo_down v hinv h0⟩⟩

theorem navigate_view_single_step_witness :
    (mkView 25 10 5 5).wf ∧ 0 < (mkView 25 10 5 5).lines ∧ (mkView 25 10 5 5).inv ∧
    navigate_view (mkView 25 10 5 5) .REQ_MOVE_UP = .ret (mkView 25 10 4 4, none) ∧
    navigate_view (mkView 25 10 5 14) .REQ_MOVE_DOWN = .ret (mkView 25 10 6 15, none) :=
  ⟨by decide, by decide, by decide,
   ((navigate_view_single_step (mkView 25 10 5 5) (by decide) (by decide)).2.2.1
      (by decide)).1,
   ((navigate_view_single_step (mkView 25 10 5 14) (by decide) (by decide)).2.2.2
      (by decide)).1⟩

/-! ## Page moves -/

/-- PageUp: the window goes up by `height` rows, not above the first record,
and the cursor goes to its first row. -/
theorem navigate_view_pg_up (v : View) (hwf : v.wf) (hinv : v.inv) :
    navigate_view_pg v .REQ_MOVE_PGUP =
      .ret (v.moveTo (max 0 ((v.offset : Int) - v.height)).toNat
                     (max 0 ((v.offset : Int) - v.height)).toNat) := by
  obtain ⟨w1, w2, w3, w4, w5⟩ := hwf
  obtain ⟨i1, i2, i3, i4⟩ := hinv
  have e4 : to_ulong v.height = v.height.toNat := to_ulong_nonneg _ (by omega) (by omega)
  by_cases hc : v.offset ≥ v.height.toNat
  · have e1 : usub v.offset v.height.toNat = v.offset - v.height.toNat :=
      usub_small _ _ hc w1
    have hx : ((v.offset - v.height.toNat : Nat) : Int) = v.offset + (-v.height) := by omega
    have e2 := to_int_page_steps _ _ _ w1 (by omega) (by omega) hx
    have e3 := to_ulong_page_ne _ _ _ (by omega) (by omega) hx (by omega)
    have hm := move_view_eq (v.moveTo v.offset 0) (-v.height)
      ⟨w1, by simp only [View.moveTo]; omega, w3, w4, w5⟩ i1 (by omega)
      (by simp only [View.moveTo]; omega) (by simp only [View.moveTo]; omega)
      (by simp only [View.moveTo]; omega)
    simp only [View.moveTo] at hm
    simp only [navigate_view_pg, navigate_view_pg_target, e4, if_pos hc, e1, ne_eq,
      e3.symm, not_false_eq_true, if_true, e2, hm]
    simp only [View.moveTo, Run.ret.injEq, View.mk.injEq, true_and, and_true]
    omega
  · have e0 : to_ulong 0 = 0 := by decide
    by_cases hz : v.offset = 0
    · simp only [navigate_view_pg, navigate_view_pg_target, e4, if_neg hc, e0, ne_eq]
      simp only [hz, not_true_eq_false, if_false]
      simp only [View.moveTo, Run.ret.injEq, View.mk.injEq, true_and, and_true]
      omega
    · have e2 : to_int (usub 0 v.offset) = -(v.offset : Int) := by
        rw [to_int_usub _ _ (by omega) w1 (by omega) (by omega)]; omega
      have hm := move_view_eq (v.moveTo v.offset 0) (-(v.offset : Int))
        ⟨w1, by simp only [View.moveTo]; omega, w3, w4, w5⟩ i1 (by omega)
        (by simp only [View.moveTo]; omega) (by simp only [View.moveTo]; omega)
        (by simp only [View.moveTo]; omega)
      simp only [View.moveTo] at hm
      simp only [navigate_view_pg, navigate_view_pg_target, e4, if_neg hc, e0, ne_eq, hz,
        not_false_eq_true, if_true, e2, hm]
      simp only [View.moveTo, Run.ret.injEq, View.mk.injEq, true_and, and_true]
      omega

/-- PageDown with a record at offset + height: the window goes down by
`height` rows and the cursor goes to its first row. -/
theorem navigate_view_pg_down (v : View) (hwf : v.wf) (hinv : v.inv)
    (hd : (v.offset : Int) + v.height ≤ v.lines - 1) :
    navigate_view_pg v .REQ_MOVE_PGDN =
      .ret (v.moveTo ((v.offset : Int) + v.height).toNat
                     ((v.offset : Int) + v.height).toNat) := by
  obtain ⟨w1, w2, w3, w4, w5⟩ := hwf
  obtain ⟨i1, i2, i3, i4⟩ := hinv
  have e4 : to_ulong v.height = v.height.toNat := to_ulong_nonneg _ (by omega) (by omega)
  have e1 : uadd v.offset v.height.toNat = v.offset + v.height.toNat :=
    uadd_small _ _ (by omega)
  have hx : ((v.offset + v.height.toNat : Nat) : Int) = v.offset + v.height := by omega
  have e2 := to_int_page_steps _ _ _ w1 (by omega) (by omega) hx
  have e3 := to_ulong_page_ne _ _ _ (by omega) (by omega) hx (by omega)
  have hm := move_view_eq (v.moveTo v.offset 0) v.height
    ⟨w1, by simp only [View.moveTo]; omega, w3, w4, w5⟩ i1 (by omega)
    (by simp only [View.moveTo]; omega) (by simp only [View.moveTo]; omega)
    (by simp only [View.moveTo]; omega)
  simp only [View.moveTo] at hm
  simp only [navigate_view_pg, navigate_view_pg_target, e4, e1, ne_eq,
    e3.symm, not_false_eq_true, if_true, e2, hm]
  simp only [View.moveTo, Run.ret.injEq, View.mk.injEq, true_and, and_true]
  omega

/-- C7. On a store that satisfies the view invariant (which forces total > 0),
PageUp returns with offset' = max(0, offset - height) and cursor' = offset'; PageDown with
offset + height ≤ total - 1 returns with offset' = offset + height and
cursor' = offset'. The previous cursor does not enter the result. -/
theorem navigate_view_pg_page (v : View) (hwf : v.wf) (hinv : v.inv) :
    navigate_view_pg v .REQ_MOVE_PGUP =
      .ret (v.moveTo (max 0 ((v.offset : Int) - v.height)).toNat
                     (max 0 ((v.offset : Int) - v.height)).toNat) ∧
    ((v.offset : Int) + v.height ≤ v.lines - 1 →
      navigate_view_pg v .REQ_MOVE_PGDN =
        .ret (v.moveTo ((v.offset : Int) + v.height).toNat
                       ((v.offset : Int) + v.height).toNat)) :=
  ⟨navigate_view_pg_up v hwf hinv, navigate_view_pg_down v hwf hinv⟩

theorem navigate_view_pg_page_witness :
    (mkView 25 10 13 17).wf ∧ 0 < (mkView 25 10 13 17).lines ∧ (mkView 25 10 13 17).inv ∧
    navigate_view_pg (mkView 25 10 13 17) .REQ_MOVE_PGUP = .ret (mkView 25 10 3 3) ∧
    navigate_view_pg (mkView 25 10 3 7) .REQ_MOVE_PGDN = .ret (mkView 25 10 13 13) :=
  ⟨by decide, by decide, by decide,
   (navigate_view_pg_page (mkView 25 10 13 17) (by decide) (by decide)).1,
   (navigate_view_pg_page (mkView 25 10 3 7) (by decide) (by decide)).2
      (by decide)⟩

/-! ## Where navigation aborts -/

/-- C6. With total = 25 and height = 10, starting at offset 0: the first
PageDown gives offset 10, the second gives offset 20, and the third sets
offset to 30 and fails the assertion `view->offset < view->lines` of
`move_view` (line 1048) instead of keeping offset ≤ 24. -/
theorem navigate_view_pg_third_page_down_aborts :
    (mkView 25 10 0 0).wf ∧ (mkView 25 10 0 0).inv ∧
    navigate_view_pg (mkView 25 10 0 0) .REQ_MOVE_PGDN = .ret (mkView 25 10 10 10) ∧
    navigate_view_pg (mkView 25 10 10 10) .REQ_MOVE_PGDN = .ret (mkView 25 10 20 20) ∧
    (mkView 25 10 20 20).inv ∧
    navigate_view_pg (mkView 25 10 20 20) .REQ_MOVE_PGDN = .abort 1048 := by
  decide

/-- C5. MoveBottom on a store shorter than the window (total = 5, height = 10,
offset = 0, cursor = 0) sets the cursor to offset + height - 1 = 9 and fails the
assertion `view->lineno < view->lines` of `navigate_view` (line 1126); it does
not return cursor = 4. -/
theorem navigate_view_move_low_short_store_aborts :
    (mkView 5 10 0 0).wf ∧ (mkView 5 10 0 0).inv ∧
    navigate_view_steps (mkView 5 10 0 0) .REQ_MOVE_LOW = some 9 ∧
    navigate_view (mkView 5 10 0 0) .REQ_MOVE_LOW = .abort 1126 := by
  decide

/-- C1. Two navigation requests on states that satisfy the view invariant end
in a failed assertion instead of a state that satisfies it: PageDown on a store
that fits the window (total = 5, height = 10, offset = cursor = 0) fails the
assertion of `move_view` at line 1048, and MoveBottom on the same store with the
cursor on its second record fails the assertion of `navigate_view` at
line 1126. -/
theorem navigate_assertion_failures :
    ((mkView 5 10 0 0).wf ∧ 0 < (mkView 5 10 0 0).lines ∧ (mkView 5 10 0 0).inv ∧
      navigate_view_pg (mkView 5 10 0 0) .REQ_MOVE_PGDN = .abort 1048) ∧
    ((mkView 5 10 0 1).wf ∧ 0 < (mkView 5 10 0 1).lines ∧ (mkView 5 10 0 1).inv ∧
      navigate_view (mkView 5 10 0 1) .REQ_MOVE_LOW = .abort 1126) := by
  decide

/-- A scroll that puts the window start at or past the end of the store fails
the first assertion of `move_view`. -/
theorem move_view_past_end (v : View) (s : Int)
    (h : v.lines ≤ uadd v.offset (to_ulong s)) : move_view v s = .abort 1048 := by
  unfold move_view
  exact if_pos (Nat.not_lt.mpr h)

/-- PageDown from any state that satisfies the invariant and has no record at
offset + height fails the assertion of `move_view` at line 1048. -/
theorem navigate_view_pg_down_past_end (v : View) (hwf : v.wf) (hinv : v.inv)
    (h : (v.lines : Int) ≤ v.offset + v.height) :
    navigate_view_pg v .REQ_MOVE_PGDN = .abort 1048 := by
  obtain ⟨w1, w2, w3, w4, w5⟩ := hwf
  obtain ⟨i1, i2, i3, i4⟩ := hinv
  have e4 : to_ulong v.height = v.height.toNat := to_ulong_nonneg _ (by omega) (by omega)
  have e1 : uadd v.offset v.height.toNat = v.offset + v.height.toNat :=
    uadd_small _ _ (by omega)
  have hx : ((v.offset + v.height.toNat : Nat) : Int) = v.offset + v.height := by omega
  have e2 := to_int_page_steps _ _ _ w1 (by omega) (by omega) hx
  have e3 := to_ulong_page_ne _ _ _ (by omega) (by omega) hx (by omega)
  have hm : move_view { v with lineno := 0 } v.height = .abort 1048 :=
    move_view_past_end _ _ (by
      show v.lines ≤ uadd v.offset (to_ulong v.height)
      rw [e4, e1]; omega)
  simp only [navigate_view_pg, navigate_view_pg_target, e4, e1, ne_eq,
    e3.symm, not_false_eq_true, if_true, e2, hm]

/-- The `steps` of MoveBottom: the rows between the cursor and the last row of
the window. -/
theorem to_int_low_steps (o l : Nat) (h : Int) (ho : o < 9223372036854775808)
    (hl : o ≤ l) (hlh : (l : Int) ≤ o + h - 1) (h2 : h < 2147483648) :
    to_int (usub (usub (uadd (to_ulong h) o) l) 1) = o + h - 1 - l := by
  unfold to_int usub uadd to_ulong; omega

theorem uadd_low_steps (o l : Nat) (h : Int) (ho : o < 9223372036854775808)
    (hl : o ≤ l) (hlh : (l : Int) ≤ o + h - 1) (h2 : h < 2147483648) :
    uadd l (to_ulong (o + h - 1 - l)) = ((o : Int) + h - 1).toNat := by
  unfold uadd to_ulong; omega

/-- What `navigate_view` does for MoveBottom on a state that satisfies the
invariant, before any scroll: nothing at the first line of a one-row window at
the top or at the last record; a failed assertion at line 1126 when there is no
record at offset + height - 1; else the cursor goes to offset + height - 1. -/
theorem navigate_view_body_low (v : View) (hwf : v.wf) (hinv : v.inv) :
    navigate_view_body v .REQ_MOVE_LOW =
      if v.lineno = 0 ∧ (v.offset : Int) + v.height - 1 = 0 then
        .ret (.finished v (some "already at first line"))
      else if v.lineno + 1 = v.lines then
        .ret (.finished v (some "already at last line"))
      else if (v.lines : Int) < v.offset + v.height then .abort 1126
      else .ret (.finished (v.moveTo v.offset ((v.offset : Int) + v.height - 1).toNat) none) := by
  obtain ⟨w1, w2, w3, w4, w5⟩ := hwf
  obtain ⟨i1, i2, i3, i4⟩ := hinv
  have hsteps : navigate_view_steps v .REQ_MOVE_LOW =
      some ((v.offset : Int) + v.height - 1 - v.lineno) :=
    congrArg some (to_int_low_steps _ _ _ (by omega) i3 (by omega) w5)
  have e7 := uadd_low_steps v.offset v.lineno v.height (by omega) i3 (by omega) w5
  have e6 : uadd v.lineno 1 = v.lineno + 1 := uadd_small _ _ (by omega)
  have e8 : uadd v.offset (to_ulong v.height) = ((v.offset : Int) + v.height).toNat :=
    uadd_to_ulong _ _ (by omega) (by omega)
  rw [navigate_view_body, hsteps]
  simp only [e6, e7, e8, View.moveTo]
  clear hsteps e6 e7 e8
  by_cases c1 : v.lineno = 0 ∧ (v.offset : Int) + v.height - 1 = 0
  · rw [if_pos c1, if_pos ⟨by omega, c1.1⟩]
  · rw [if_neg c1, if_neg (by omega)]
    by_cases c2 : v.lineno + 1 = v.lines
    · rw [if_pos c2, if_pos ⟨by omega, c2⟩]
    · rw [if_neg c2, if_neg (fun h => c2 h.2)]
      by_cases c3 : (v.lines : Int) < v.offset + v.height
      · rw [if_pos c3, if_pos (by omega)]
      · rw [if_neg c3, if_neg (by omega), if_neg (by omega)]

/-- MoveBottom on a state that satisfies the invariant: the cursor goes to
offset + height - 1 when the store has a record there; when it has none and the
cursor is not yet on the last record, the assertion at line 1126 fails. -/
theorem navigate_view_move_low (v : View) (hwf : v.wf) (hinv : v.inv) :
    navigate_view v .REQ_MOVE_LOW =
      if v.lineno = 0 ∧ (v.offset : Int) + v.height - 1 = 0 then
        .ret (v, some "already at first line")
      else if v.lineno + 1 = v.lines then
        .ret (v, some "already at last line")
      else if (v.lines : Int) < v.offset + v.height then .abort 1126
      else .ret (v.moveTo v.offset ((v.offset : Int) + v.height - 1).toNat, none) := by
  rw [navigate_view, navigate_view_body_low v hwf hinv]
  split_ifs <;> rfl

theorem uadd_high_steps (o l : Nat) (ho : o ≤ l) (hl : l < 18446744073709551616) :
    uadd l (to_ulong ((o : Int) - l)) = o := by
  unfold uadd to_ulong; omega

/-- MoveTop on a state that satisfies the invariant: the cursor goes to the
first row of the window and the offset stays. -/
theorem navigate_view_move_high (v : View) (hwf : v.wf) (hinv : v.inv) :
    navigate_view v .REQ_MOVE_HIGH =
      if v.lineno = 0 then .ret (v, some "already at first line")
      else if v.lineno = v.offset ∧ v.lineno + 1 = v.lines then
        .ret (v, some "already at last line")
      else .ret (v.moveTo v.offset v.offset, none) := by
  obtain ⟨w1, w2, w3, w4, w5⟩ := hwf
  obtain ⟨i1, i2, i3, i4⟩ := hinv
  have hsteps : navigate_view_steps v .REQ_MOVE_HIGH = some ((v.offset : Int) - v.lineno) :=
    congrArg some (to_int_usub _ _ w1 w2 (by omega) (by omega))
  have e7 := uadd_high_steps v.offset v.lineno i3 w2
  have e6 : uadd v.lineno 1 = v.lineno + 1 := uadd_small _ _ (by omega)
  have e8 : uadd v.offset (to_ulong v.height) = ((v.offset : Int) + v.height).toNat :=
    uadd_to_ulong _ _ (by omega) (by omega)
  rw [navigate_view, navigate_view_body, hsteps]
  simp only [e6, e7, e8, View.moveTo]
  clear hsteps e6 e7 e8
  by_cases c1 : v.lineno = 0
  · rw [if_pos c1, if_pos ⟨by omega, c1⟩]
  · rw [if_neg c1, if_neg (fun h => c1 h.2)]
    by_cases c2 : v.lineno = v.offset ∧ v.lineno + 1 = v.lines
    · rw [if_pos c2, if_pos ⟨by omega, c2.2⟩]
    · rw [if_neg c2, if_neg (by omega), if_neg (by omega), if_neg (by omega)]

/-- On a state that satisfies the invariant, every navigation request that
returns leaves a state that satisfies it; what breaks the invariant claim are
the two assertion failures above, not a returned state. -/
theorem navigate_inv_of_ret (v : View) (hwf : v.wf) (hinv : v.inv) :
    (∀ req v2 msg, navigate_view v req = .ret (v2, msg) → v2.inv) ∧
    (∀ req v2, navigate_view_pg v req = .ret v2 → v2.inv) := by
  have hwf2 := hwf
  have hinv2 := hinv
  obtain ⟨w1, w2, w3, w4, w5⟩ := hwf2
  obtain ⟨i1, i2, i3, i4⟩ := hinv2
  constructor
  · intro req v2 msg h
    cases req
    case REQ_MOVE_HIGH =>
      rw [navigate_view_move_high v hwf hinv] at h
      split_ifs at h <;> cases h
      · exact hinv
      · exact hinv
      · simp only [View.moveTo, View.inv]; omega
    case REQ_MOVE_LOW =>
      rw [navigate_view_move_low v hwf hinv] at h
      split_ifs at h <;> cases h
      · exact hinv
      · exact hinv
      · simp only [View.moveTo, View.inv]; omega
    case REQ_MOVE_UP =>
      by_cases c : v.lineno = 0
      · rw [navigate_view_up_at_first v c] at h; cases h; exact hinv
      · rw [navigate_view_up v hwf hinv c] at h; cases h
        exact (inv_moveTo_up v hinv c).1
    case REQ_MOVE_DOWN =>
      by_cases c : v.lineno + 1 = v.lines
      · rw [navigate_view_down_at_last v hwf c] at h; cases h; exact hinv
      · rw [navigate_view_down v hwf hinv c] at h; cases h
        exact inv_moveTo_down v hinv c
    all_goals simp [navigate_view, navigate_view_body, navigate_view_steps] at h
  · intro req v2 h
    cases req
    case REQ_MOVE_PGUP =>
      rw [navigate_view_pg_up v hwf hinv] at h; cases h
      simp only [View.moveTo, View.inv]; omega
    case REQ_MOVE_PGDN =>
      by_cases c : (v.offset : Int) + v.height ≤ v.lines - 1
      · rw [navigate_view_pg_down v hwf hinv c] at h; cases h
        simp only [View.moveTo, View.inv]; omega
      · rw [navigate_view_pg_down_past_end v hwf hinv (by omega)] at h; cases h
    all_goals simp [navigate_view_pg, navigate_view_pg_target] at h

/-! ## The scroll delta of a single-step move -/

/-- C8, as stated, fails: after PageDown has put the window at offset 20 of 25
records (height 10), MoveUp passes steps = -1 to `move_view`, and
offset + steps = 19 exceeds max(0, total - height) = 15. -/
theorem navigate_view_scroll_above_bound :
    (mkView 25 10 20 20).wf ∧ (mkView 25 10 20 20).inv ∧
    navigate_view_pg (mkView 25 10 10 10) .REQ_MOVE_PGDN = .ret (mkView 25 10 20 20) ∧
    navigate_view_body (mkView 25 10 20 20) .REQ_MOVE_UP =
      .ret (.scroll (mkView 25 10 20 19) (-1)) ∧
    ¬ ((20 : Int) + (-1) ≤ max 0 (25 - 10)) := by
  decide

/-- C8, amended. On a store that satisfies the view invariant (which forces
total > 0), for a single-step move whose new cursor is outside
`[offset, offset + height - 1]`, `navigate_view` calls `move_view` with
steps = -1 (MoveUp) or steps = 1 (MoveDown), and 0 ≤ offset + steps ≤ total - 1.
For MoveDown offset + steps ≤ max(0, total - height) as well; for MoveUp that
bound holds whenever the offset before the move was at most
max(0, total - height) + 1. -/
theorem navigate_view_scroll_steps (v : View) (hwf : v.wf) (hinv : v.inv) :
    (v.lineno ≠ 0 → ¬ v.shows (v.lineno - 1) →
      navigate_view_body v .REQ_MOVE_UP =
        .ret (.scroll (v.moveTo v.offset (v.lineno - 1)) (-1)) ∧
      0 ≤ (v.offset : Int) + (-1) ∧ (v.offset : Int) + (-1) ≤ v.lines - 1 ∧
      ((v.offset : Int) ≤ max 0 (v.lines - v.height) + 1 →
        (v.offset : Int) + (-1) ≤ max 0 (v.lines - v.height))) ∧
    (v.lineno + 1 ≠ v.lines → ¬ v.shows (v.lineno + 1) →
      navigate_view_body v .REQ_MOVE_DOWN =
        .ret (.scroll (v.moveTo v.offset (v.lineno + 1)) 1) ∧
      0 ≤ (v.offset : Int) + 1 ∧ (v.offset : Int) + 1 ≤ v.lines - 1 ∧
      (v.offset : Int) + 1 ≤ max 0 (v.lines - v.height)) := by
  have hwf2 := hwf
  have hinv2 := hinv
  obtain ⟨w1, w2, w3, w4, w5⟩ := hwf2
  obtain ⟨i1, i2, i3, i4⟩ := hinv2
  constructor
  · intro h0 hs
    simp only [View.shows] at hs
    rw [navigate_view_body_up v hwf hinv h0, if_pos (by omega)]
    refine ⟨rfl, ?_, ?_, ?_⟩ <;> omega
  · intro h0 hs
    simp only [View.shows] at hs
    rw [navigate_view_body_down v hwf hinv h0, if_pos (by omega)]
    refine ⟨rfl, ?_, ?_, ?_⟩ <;> omega

theorem navigate_view_scroll_steps_witness :
    (mkView 25 10 20 20).wf ∧ 0 < (mkView 25 10 20 20).lines ∧ (mkView 25 10 20 20).inv ∧
    navigate_view_body (mkView 25 10 20 20) .REQ_MOVE_UP =
      .ret (.scroll ((mkView 25 10 20 20).moveTo 20 19) (-1)) ∧
    navigate_view_body (mkView 25 10 5 14) .REQ_MOVE_DOWN =
      .ret (.scroll ((mkView 25 10 5 14).moveTo 5 15) 1) :=
  ⟨by decide, by decide, by decide,
   ((navigate_view_scroll_steps (mkView 25 10 20 20) (by decide) (by decide)).1
      (by decide) (by decide)).1,
   ((navigate_view_scroll_steps (mkView 25 10 5 14) (by decide) (by decide)).2
      (by decide) (by decide)).1⟩

/-! ## Scanning for the delimiter -/

theorem strsplit_delimited (c : Char) (word rest : CStr) (h : c ∉ word) :
    strsplit (word ++ c :: rest) c = .ret word := by
  induction word with
  | nil => simp [strsplit]
  | cons x xs ih =>
    have hx : x ≠ c := fun e => h (by simp [e])
    have hxs : c ∉ xs := fun e => h (by simp [e])
    simp [strsplit, hx, ih hxs, Run.bind]

theorem strchr_delimited (c : Char) (word rest : CStr) (h : c ∉ word) :
    strchr (word ++ c :: rest) c = some (c :: rest) := by
  induction word with
  | nil => simp [strchr]
  | cons x xs ih =>
    have hx : x ≠ c := fun e => h (by simp [e])
    have hxs : c ∉ xs := fun e => h (by simp [e])
    simp [strchr, hx, ih hxs]

theorem strchr_absent (c : Char) (hc : c ≠ Char.ofNat 0) (s : CStr) (h : c ∉ s) :
    strchr s c = none := by
  induction s with
  | nil => simp [strchr, hc]
  | cons x xs ih =>
    have hx : x ≠ c := fun e => h (by simp [e])
    have hxs : c ∉ xs := fun e => h (by simp [e])
    simp [strchr, hx, ih hxs]

theorem strncmp_self_take (b : CStr) : ∀ (a : CStr), a.take b.length = b →
    strncmp a b b.length = 0 := by
  induction b with
  | nil => intro a _; simp [strncmp]
  | cons y ys ih =>
    intro a h
    cases a with
    | nil => simp at h
    | cons x xs =>
      simp only [List.length_cons, List.take_succ_cons, List.cons.injEq] at h
      simp [strncmp, h.1, ih xs h.2]

/-! ## Parsing a line -/

/-- C2, as stated, fails: `default_read` skips the first two bytes of the line,
so "main.c:42:  hello world" is stored with the name "in.c". -/
theorem default_read_skips_two_bytes :
    default_read { mkView 0 10 0 0 with alloc := 10 } "main.c:42:  hello world".toList =
      .ret { mkView 1 10 0 0 with
             alloc := 10
             line := [{ name := "in.c".toList, number := "42".toList,
                        content := "hello world".toList }] } ∧
    "in.c".toList ≠ "main.c".toList := by
  decide

/-- C2, amended. For a raw line made of two leading bytes (the "./" that `find`
puts before each path), then name ':' number ':' rest, where name and number
contain no ':' and name, number and the trimmed rest fit their fields (127, 5
and 127 bytes), `default_read` appends to a store with a free slot one record
with that name, that number and rest without its leading whitespace. -/
theorem default_read_parses (view : View) (p q : Char) (name number rest : CStr)
    (hwf : view.wf) (hstore : view.line.length = view.lines)
    (hroom : view.lines < view.alloc)
    (hname : ':' ∉ name) (hnumber : ':' ∉ number)
    (hn : name.length ≤ 127) (hm : number.length ≤ 5)
    (hc : (rest.dropWhile isspace).length ≤ 127) :
    default_read view (p :: q :: (name ++ ':' :: (number ++ ':' :: rest))) =
      .ret { view with
        line := view.line ++
          [{ name := name, number := number, content := rest.dropWhile isspace }],
        lines := view.lines + 1 } := by
  obtain ⟨w1, w2, w3, w4, w5⟩ := hwf
  have e1 : uadd view.lines 1 = view.lines + 1 := uadd_small _ _ (by omega)
  have e2 : view.line.take view.lines = view.line := by
    rw [← hstore]; exact List.take_length _
  simp only [default_read, List.length_cons, List.drop_succ_cons, List.drop_zero,
    strsplit_delimited _ _ _ hname, strchr_delimited _ _ _ hname,
    strsplit_delimited _ _ _ hnumber, strchr_delimited _ _ _ hnumber, Run.bind,
    string_ncopy, e1, e2]
  rw [if_neg (by omega), if_neg (by omega)]
  rw [List.take_of_length_le (by omega), List.take_of_length_le (by omega),
    List.take_of_length_le (by omega)]

theorem default_read_parses_witness :
    default_read { mkView 3 10 0 0 with alloc := 13, line := List.replicate 3 ⟨[], [], []⟩ }
        "./main.c:42:  hello world".toList =
      .ret { mkView 4 10 0 0 with
             alloc := 13
             line := List.replicate 3 ⟨[], [], []⟩ ++
               [{ name := "main.c".toList, number := "42".toList,
                  content := "hello world".toList }] } :=
  default_read_parses { mkView 3 10 0 0 with alloc := 13, line := List.replicate 3 ⟨[], [], []⟩ }
    '.' '/' "main.c".toList "42".toList "  hello world".toList
    (by decide) (by decide) (by decide) (by decide) (by decide) (by decide) (by decide)
    (by decide)

/-! ## Lines that are dropped -/

/-- C3. A raw line that, once its last byte is stripped, begins with
"Binary file" or contains no ':' is consumed without a call of `default_read`:
the loop of `update_view` goes on with the same view (same store, same
`view->lines`) and the same counter, and a stream that holds only that line
ends with the view unchanged. -/
theorem update_view_loop_drops (view : View) (raw : CStr) (rest : List CStr) (n : Nat)
    (h : (raw.take (raw.length - 1)).take update_view_top.length = update_view_top ∨
         ':' ∉ raw.take (raw.length - 1)) :
    update_view_loop view (raw :: rest) n = update_view_loop view rest n ∧
    update_view_loop view [raw] n = .ret (view, [], true) := by
  have step : ∀ rest, update_view_loop view (raw :: rest) n = update_view_loop view rest n := by
    intro rest
    rcases h with h | h
    · simp only [update_view_loop, strncmp_self_take _ _ h, if_true]
    · simp only [update_view_loop, strchr_absent _ (by decide) _ h, Option.isNone_none,
        if_true, ite_self]
  exact ⟨step rest, by rw [step []]; rfl⟩

theorem update_view_loop_drops_witness :
    update_view_loop (startView 10 80 []) ["Binary file ./x matches\n".toList] 10 =
      .ret (startView 10 80 [], [], true) ∧
    update_view_loop (startView 10 80 []) ["no delimiter here\n".toList] 10 =
      .ret (startView 10 80 [], [], true) :=
  ⟨(update_view_loop_drops (startView 10 80 []) "Binary file ./x matches\n".toList [] 10
      (Or.inl (by decide))).2,
   (update_view_loop_drops (startView 10 80 []) "no delimiter here\n".toList [] 10
      (Or.inr (by decide))).2⟩

/-! ## The store after a read -/

theorem Run.bind_eq_ret {α β : Type} {r : Run α} {f : α → Run β} {b : β}
    (h : r.bind f = .ret b) : ∃ a, r = .ret a ∧ f a = .ret b := by
  cases r with
  | ret a => exact ⟨a, rfl, h⟩
  | abort n => cases h
  | undef => cases h
  | exit n => cases h

/-- A successful `default_read` appends exactly one record: the index again
holds `view->lines` records, one more than before, and the window is where it
was. -/
theorem default_read_store (view v2 : View) (line : CStr)
    (hs : view.line.length = view.lines) (hl : view.lines < 9223372036854775808)
    (h : default_read view line = .ret v2) :
    v2.line.length = v2.lines ∧ v2.lines = view.lines + 1 ∧
    v2.line.take view.lines = view.line ∧
    v2.offset = view.offset ∧ v2.lineno = view.lineno ∧ v2.height = view.height ∧
    v2.width = view.width ∧ v2.alloc = view.alloc ∧ v2.pipe = view.pipe := by
  have e1 : uadd view.lines 1 = view.lines + 1 := uadd_small _ _ (by omega)
  have e2 : view.line.take view.lines = view.line := by
    rw [← hs]; exact List.take_length _
  simp only [default_read, e1, e2] at h
  split_ifs at h with c1 c2
  obtain ⟨name, -, h⟩ := Run.bind_eq_ret h
  cases h2 : strchr (line.drop 2) ':' with
  | none => rw [h2] at h; cases h
  | some e =>
    rw [h2] at h
    obtain ⟨number, -, h⟩ := Run.bind_eq_ret h
    cases h4 : strchr (e.drop 1) ':' with
    | none => rw [h4] at h; cases h
    | some e2 =>
      rw [h4] at h
      cases h
      simp [hs]

/-- The loop of `update_view` keeps the index in step with `view->lines` and
leaves the window where it was. -/
theorem update_view_loop_store (stream : List CStr) :
    ∀ (view : View) (n : Nat) (r : View × List CStr × Bool),
      view.line.length = view.lines →
      view.lines + stream.length < 9223372036854775808 →
      update_view_loop view stream n = .ret r →
      r.1.line.length = r.1.lines ∧ view.lines ≤ r.1.lines ∧
      r.1.offset = view.offset ∧ r.1.lineno = view.lineno ∧
      r.1.height = view.height ∧ r.1.width = view.width := by
  induction stream with
  | nil =>
    intro view n r hs _ h
    simp only [update_view_loop] at h
    cases h
    exact ⟨hs, le_refl _, rfl, rfl, rfl, rfl⟩
  | cons raw rest ih =>
    intro view n r hs hb h
    simp only [List.length_cons] at hb
    simp only [update_view_loop] at h
    split_ifs at h with c1 c2 c3
    · exact ih view n r hs (by omega) h
    · exact ih view n r hs (by omega) h
    · cases hd : default_read view (raw.take (raw.length - 1)) with
      | ret view2 =>
        rw [hd] at h
        obtain ⟨s1, s2, -, s4, s5, s6, s7, -, -⟩ :=
          default_read_store view view2 _ hs (by omega) hd
        cases h
        exact ⟨s1, by show view.lines ≤ view2.lines; omega, s4, s5, s6, s7⟩
      | abort k => rw [hd] at h; cases h
      | undef => rw [hd] at h; cases h
      | exit k => rw [hd] at h; cases h
    · cases hd : default_read view (raw.take (raw.length - 1)) with
      | ret view2 =>
        rw [hd] at h
        obtain ⟨s1, s2, -, s4, s5, s6, s7, -, -⟩ :=
          default_read_store view view2 _ hs (by omega) hd
        obtain ⟨t1, t2, t3, t4, t5, t6⟩ := ih view2 _ r s1 (by omega) h
        exact ⟨t1, by omega, t3.trans s4, t4.trans s5, t5.trans s6, t6.trans s7⟩
      | abort k => rw [hd] at h; cases h
      | undef => rw [hd] at h; cases h
      | exit k => rw [hd] at h; cases h

/-- A call of `update_view` that returns keeps the index in step with
`view->lines` (so every record index below the total is an initialised slot),
never shortens the store, and leaves the window where it was. -/
theorem update_view_store (view v2 : View) (flag : Bool)
    (hs : view.line.length = view.lines)
    (hb : ∀ stream, view.pipe = some stream →
      view.lines + stream.length < 9223372036854775808)
    (h : update_view view = .ret (v2, flag)) :
    v2.line.length = v2.lines ∧ view.lines ≤ v2.lines ∧
    v2.offset = view.offset ∧ v2.lineno = view.lineno ∧
    v2.height = view.height ∧ v2.width = view.width := by
  unfold update_view at h
  cases hp : view.pipe with
  | none =>
    rw [hp] at h
    cases h
    exact ⟨hs, le_refl _, rfl, rfl, rfl, rfl⟩
  | some stream =>
    rw [hp] at h
    simp only at h
    obtain ⟨r, hr, h⟩ := Run.bind_eq_ret h
    obtain ⟨_, _, h⟩ := Run.bind_eq_ret h
    have hl := update_view_loop_store stream _ _ r (by exact hs) (by exact hb stream hp) hr
    split_ifs at h <;> cases h <;> exact hl

/-! ## What `default_render` returns -/

/-- C9, as stated, fails: the line "./:1:x" passes the filter of `update_view`
and is stored with an empty name; row 0 of the resulting view has index
0 < total = 1, yet `default_render` returns false for it. -/
theorem default_render_false_below_total :
    update_view (startView 10 80 ["./:1:x\n".toList]) =
      .ret ({ height := 10, width := 80, offset := 0, lineno := 0, lines := 1,
              line := [{ name := [], number := "1".toList, content := "x".toList }],
              alloc := 10, pipe := none }, false) ∧
    default_render
      { height := 10, width := 80, offset := 0, lineno := 0, lines := 1,
        line := [{ name := [], number := "1".toList, content := "x".toList }],
        alloc := 10, pipe := none } 0 = .ret (false, none) ∧
    (0 : Nat) + 0 < 1 := by
  decide

/-- C9, amended. For a view whose index holds `view->lines` records and every
viewport row r, `default_render(view, r)` returns, and it returns true if and
only if i = offset + r is below total and the record at i has a non-empty
name; it returns false for every index at or beyond total. For a store without
empty names it returns true exactly when i < total. -/
theorem default_render_true_iff (v : View) (r : Nat) (hwf : v.wf)
    (hstore : v.line.length = v.lines) (hoff : v.offset ≤ v.lines)
    (hr : (r : Int) < v.height) :
    ∃ b row, default_render v r = .ret (b, row) ∧
      (b = true ↔ ∃ fi, v.line[v.offset + r]? = some fi ∧ fi.name ≠ []) ∧
      (b = true → v.offset + r < v.lines) ∧
      (v.lines ≤ v.offset + r → b = false) ∧
      ((∀ fi ∈ v.line, fi.name ≠ []) → (b = true ↔ v.offset + r < v.lines)) := by
  obtain ⟨w1, w2, w3, w4, w5⟩ := hwf
  have e1 : uadd v.offset r = v.offset + r := uadd_small _ _ (by omega)
  unfold default_render
  simp only [e1]
  by_cases h1 : v.offset + r ≥ v.lines
  · rw [if_pos h1]
    have hnone : v.line[v.offset + r]? = none :=
      List.getElem?_eq_none (by omega)
    refine ⟨false, none, rfl, ?_, ?_, ?_, ?_⟩
    · simp [hnone]
    · simp
    · simp
    · intro _; constructor
      · simp
      · intro h; omega
  · rw [if_neg h1]
    have hlt : v.offset + r < v.line.length := by omega
    have hfi : v.line[v.offset + r]? = some v.line[v.offset + r] :=
      List.getElem?_eq_getElem hlt
    have hmem : v.line[v.offset + r] ∈ v.line := List.getElem_mem _
    rw [hfi]
    by_cases h2 : v.line[v.offset + r].name = []
    · refine ⟨false, none, by simp only [h2, if_true], ?_, ?_, ?_, ?_⟩
      · simp [h2]
      · simp
      · simp
      · intro hall; exact absurd h2 (hall _ hmem)
    · simp only [h2, if_false]
      split_ifs <;>
        exact ⟨true, _, rfl, by simp [h2], fun _ => by omega, fun h => by omega,
          fun _ => ⟨fun _ => by omega, fun _ => rfl⟩⟩

theorem default_render_true_iff_witness :
    ∃ b row,
      default_render
        { height := 10, width := 80, offset := 0, lineno := 0, lines := 1,
          line := [{ name := "main.c".toList, number := "42".toList,
                     content := "hello world".toList }],
          alloc := 10, pipe := none } 0 = .ret (b, row) ∧ b = true :=
  match default_render_true_iff
      { height := 10, width := 80, offset := 0, lineno := 0, lines := 1,
        line := [{ name := "main.c".toList, number := "42".toList,
                   content := "hello world".toList }],
        alloc := 10, pipe := none } 0 (by decide) (by decide) (by decide) (by decide) with
  | ⟨b, row, h, _, _, _, hall⟩ => ⟨b, row, h, (hall (by decide)).mpr (by decide)⟩

/-! ## Resize -/

/-- A Resize to a new height h ≥ 1 (a terminal of y = h + 2 rows and x columns)
sets height and width only: `resize_display` and `redraw_display` never touch
offset, cursor or the store, so a cursor that lay outside
`[offset, offset + h)` before the redraw lies outside it afterwards. -/
theorem view_driver_resize (v : View) (y x : Int) (hy : 1 ≤ y - 2) (hy2 : y < 2147483648) :
    view_driver v .REQ_SCREEN_RESIZE y x = .ret { v with height := y - 2, width := x } ∧
    ∀ v2, view_driver v .REQ_SCREEN_RESIZE y x = .ret v2 →
      v2.offset = v.offset ∧ v2.lineno = v.lineno ∧ v2.lines = v.lines ∧
      (¬ ((v.offset : Int) ≤ v.lineno ∧ (v.lineno : Int) < v.offset + (y - 2)) →
        ¬ ((v2.offset : Int) ≤ v2.lineno ∧ (v2.lineno : Int) < v2.offset + v2.height)) := by
  have e1 : to_int (to_int (y - 1) - 1) = y - 2 := by
    rw [to_int_small (y - 1) (by omega) (by omega), to_int_small _ (by omega) (by omega)]
    omega
  have hv : view_driver v .REQ_SCREEN_RESIZE y x =
      .ret { v with height := y - 2, width := x } := by
    simp only [view_driver, resize_display, redraw_display, redraw_view, redraw_view_from, e1,
      Run.bind]
    rw [if_pos ⟨le_refl _, by omega⟩]
  refine ⟨hv, ?_⟩
  intro v2 h2
  rw [hv] at h2
  cases h2
  exact ⟨rfl, rfl, rfl, fun h => h⟩

/-- C10 does not hold of the code, and the state the code produces breaks the
next request. A view of 25 records with height 10, offset 0 and cursor 9
satisfies the view invariant. A Resize to height 5 (a terminal of 7 rows)
returns with offset 0, not max(0, 9 - 5 + 1) = 5, and with the cursor outside
`[offset, offset + 5)`, so the invariant is lost. From that state MoveUp
clamps its scroll to 0 steps and fails `assert(lines)` of `move_view`
(line 1049), and MoveDown takes the cursor from record 9 to record 5. -/
theorem view_driver_resize_leaves_cursor_outside :
    (mkView 25 10 0 9).wf ∧ (mkView 25 10 0 9).inv ∧
    view_driver (mkView 25 10 0 9) .REQ_SCREEN_RESIZE 7 80 = .ret (mkView 25 5 0 9) ∧
    (mkView 25 5 0 9).offset ≠ 5 ∧
    ¬ ((mkView 25 5 0 9).offset ≤ (mkView 25 5 0 9).lineno ∧
       ((mkView 25 5 0 9).lineno : Int) < (mkView 25 5 0 9).offset + 5) ∧
    ¬ (mkView 25 5 0 9).inv ∧
    ((view_driver (mkView 25 10 0 9) .REQ_SCREEN_RESIZE 7 80).bind fun v =>
      view_driver v .REQ_MOVE_UP 7 80) = .abort 1049 ∧
    ((view_driver (mkView 25 10 0 9) .REQ_SCREEN_RESIZE 7 80).bind fun v =>
      view_driver v .REQ_MOVE_DOWN 7 80) = .ret (mkView 25 5 1 5) := by
  decide

/-! ## Navigation on an empty store -/

/-- An empty store as `begin_update` leaves it: no records, offset and cursor
at 0, a window of at least one row. -/
theorem navigate_empty_store (v : View) (hh : 1 ≤ v.height) (h2 : v.height < 2147483648)
    (hl : v.lines = 0) (ho : v.offset = 0) (hc : v.lineno = 0) :
    navigate_view v .REQ_MOVE_UP = .ret (v, some "already at first line") ∧
    navigate_view v .REQ_MOVE_HIGH = .ret (v, some "already at first line") ∧
    navigate_view_pg v .REQ_MOVE_PGUP = .ret v ∧
    navigate_view v .REQ_MOVE_DOWN = .abort 1126 ∧
    navigate_view_pg v .REQ_MOVE_PGDN = .abort 1048 ∧
    navigate_view v .REQ_MOVE_LOW =
      (if v.height = 1 then .ret (v, some "already at first line") else .abort 1126) := by
  obtain ⟨height, width, offset, lineno, lines, line, alloc, pipe⟩ := v
  simp only at hh h2 hl ho hc
  subst hl ho hc
  have e4 : to_ulong height = height.toNat := to_ulong_nonneg _ (by omega) (by omega)
  have hx : ((height.toNat : Nat) : Int) = (0 : Nat) + height := by omega
  have e2 := to_int_page_steps _ _ _ (by decide) (by omega) h2 hx
  have e3 := to_ulong_page_ne _ _ _ (by omega) h2 hx (by omega)
  have e5 := to_int_low_steps 0 0 height (by decide) (le_refl _) (by omega) h2
  have e0 : uadd 0 height.toNat = height.toNat := by
    rw [uadd_small _ _ (by omega)]; omega
  have e7 : to_ulong 0 = 0 := by decide
  have e8 : to_int ((usub 0 0 : Nat) : Int) = 0 := by decide
  have e10 : uadd 0 1 = 1 := by decide
  have e11 : uadd 0 (to_ulong 1) = 1 := by decide
  refine ⟨?_, ?_, ?_, ?_, ?_, ?_⟩
  · simp [navigate_view, navigate_view_body, navigate_view_steps]
  · have hs : navigate_view_steps
        { height := height, width := width, offset := 0, lineno := 0, lines := 0,
          line := line, alloc := alloc, pipe := pipe } .REQ_MOVE_HIGH = some 0 :=
      congrArg some e8
    rw [navigate_view, navigate_view_body, hs]
    dsimp only
    rw [if_pos ⟨le_refl _, rfl⟩]
  · have hge : ¬ (0 ≥ height.toNat) := by omega
    simp only [navigate_view_pg, navigate_view_pg_target, e4, if_neg hge, e7, ne_eq,
      not_true_eq_false, if_false]
  · simp only [navigate_view, navigate_view_body, navigate_view_steps, e10, e11]
    simp
  · have hm : move_view
        { height := height, width := width, offset := 0, lineno := 0, lines := 0,
          line := line, alloc := alloc, pipe := pipe } height = .abort 1048 :=
      move_view_past_end _ _ (Nat.zero_le _)
    simp only [navigate_view_pg, navigate_view_pg_target, e4, e0, ne_eq,
      e3.symm, not_false_eq_true, if_true, e2, hm]
  · have hs : navigate_view_steps
        { height := height, width := width, offset := 0, lineno := 0, lines := 0,
          line := line, alloc := alloc, pipe := pipe } .REQ_MOVE_LOW = some (height - 1) :=
      congrArg some (e5.trans (by omega))
    rw [navigate_view, navigate_view_body, hs]
    dsimp only
    rw [e10]
    by_cases h1 : height = 1
    · rw [if_pos h1, if_pos ⟨by omega, rfl⟩]
    · rw [if_neg h1, if_neg (fun h => h1 (by omega)), if_neg (fun h => absurd h.2 (by decide)),
        if_pos (Nat.not_lt_zero _)]

/-- C11. On an empty store (total = 0, offset = cursor = 0, height = 10)
MoveUp, MoveTop and PageUp leave offset = cursor = 0, but MoveDown and
MoveBottom move the cursor and fail the assertion of `navigate_view` at
line 1126, and PageDown sets offset = 10 and fails the assertion of `move_view`
at line 1048. -/
theorem navigate_empty_store_aborts :
    navigate_view (mkView 0 10 0 0) .REQ_MOVE_UP =
      .ret (mkView 0 10 0 0, some "already at first line") ∧
    navigate_view (mkView 0 10 0 0) .REQ_MOVE_HIGH =
      .ret (mkView 0 10 0 0, some "already at first line") ∧
    navigate_view_pg (mkView 0 10 0 0) .REQ_MOVE_PGUP = .ret (mkView 0 10 0 0) ∧
    navigate_view (mkView 0 10 0 0) .REQ_MOVE_DOWN = .abort 1126 ∧
    navigate_view (mkView 0 10 0 0) .REQ_MOVE_LOW = .abort 1126 ∧
    navigate_view_pg (mkView 0 10 0 0) .REQ_MOVE_PGDN = .abort 1048 := by
  decide

/-! ## The record that `default_read` stores -/

theorem dropWhile_isspace_run (ws content : CStr) (hws : ∀ c ∈ ws, isspace c = true)
    (hc : ∀ c, content.head? = some c → isspace c = false) :
    (ws ++ content).dropWhile isspace = content := by
  induction ws with
  | nil =>
    cases content with
    | nil => rfl
    | cons c cs =>
      have := hc c rfl
      simp [List.dropWhile, this]
  | cons w ws ih =>
    have hw : isspace w = true := hws w (by simp)
    simp only [List.cons_append, List.dropWhile_cons, hw, if_true]
    exact ih (fun c hc2 => hws c (by simp [hc2]))

/-- C16. For every two leading bytes p q, every name and number without ':',
every run ws of whitespace and every content that does not begin with
whitespace, `default_read` applied to p q name ":" number ":" ws content (with
a free slot in the line index) returns, and it appends exactly one record at
index total, after the earlier records: its name is the first 127 bytes of
name, its number the first 5 bytes of number and its content the first 127
bytes of content. When name, number and content fit (127, 5, 127 bytes) the
record is exactly (name, number, content). -/
theorem default_read_record (view : View) (p q : Char) (name number ws content : CStr)
    (hwf : view.wf) (hstore : view.line.length = view.lines)
    (hroom : view.lines < view.alloc)
    (hname : ':' ∉ name) (hnumber : ':' ∉ number)
    (hws : ∀ c ∈ ws, isspace c = true)
    (hcontent : ∀ c, content.head? = some c → isspace c = false) :
    default_read view (p :: q :: (name ++ ':' :: (number ++ ':' :: (ws ++ content)))) =
      .ret { view with
        line := view.line ++
          [{ name := name.take 127, number := number.take 5, content := content.take 127 }],
        lines := view.lines + 1 } ∧
    (name.length ≤ 127 → number.length ≤ 5 → content.length ≤ 127 →
      default_read view (p :: q :: (name ++ ':' :: (number ++ ':' :: (ws ++ content)))) =
        .ret { view with
          line := view.line ++ [{ name := name, number := number, content := content }],
          lines := view.lines + 1 }) := by
  obtain ⟨w1, w2, w3, w4, w5⟩ := hwf
  have e1 : uadd view.lines 1 = view.lines + 1 := uadd_small _ _ (by omega)
  have e2 : view.line.take view.lines = view.line := by
    rw [← hstore]; exact List.take_length _
  have e3 := dropWhile_isspace_run ws content hws hcontent
  have hmain : default_read view
      (p :: q :: (name ++ ':' :: (number ++ ':' :: (ws ++ content)))) =
      .ret { view with
        line := view.line ++
          [{ name := name.take 127, number := number.take 5, content := content.take 127 }],
        lines := view.lines + 1 } := by
    simp only [default_read, List.length_cons, List.drop_succ_cons, List.drop_zero,
      strsplit_delimited _ _ _ hname, strchr_delimited _ _ _ hname,
      strsplit_delimited _ _ _ hnumber, strchr_delimited _ _ _ hnumber, Run.bind,
      string_ncopy, e1, e2, e3]
    rw [if_neg (by omega), if_neg (by omega)]
  refine ⟨hmain, ?_⟩
  intro h1 h2 h3
  rw [hmain, List.take_of_length_le h1, List.take_of_length_le h2, List.take_of_length_le h3]

theorem default_read_record_witness :
    default_read { mkView 3 10 0 0 with alloc := 13, line := List.replicate 3 ⟨[], [], []⟩ }
        "./main.c:42:  hello world".toList =
      .ret { mkView 4 10 0 0 with
             alloc := 13
             line := List.replicate 3 ⟨[], [], []⟩ ++
               [{ name := "main.c".toList, number := "42".toList,
                  content := "hello world".toList }] } :=
  (default_read_record
    { mkView 3 10 0 0 with alloc := 13, line := List.replicate 3 ⟨[], [], []⟩ }
    '.' '/' "main.c".toList "42".toList "  ".toList "hello world".toList
    (by decide) (by decide) (by decide) (by decide) (by decide) (by decide) (by decide)).2
    (by decide) (by decide) (by decide)

/-! ## Lines that pass the filter but do not parse -/

theorem strsplit_absent (c : Char) (hc : c ≠ Char.ofNat 0) (s : CStr) (h : c ∉ s) :
    strsplit s c = .undef := by
  induction s with
  | nil => simp [strsplit, hc]
  | cons x xs ih =>
    have hx : x ≠ c := fun e => h (by simp [e])
    have hxs : c ∉ xs := fun e => h (by simp [e])
    simp [strsplit, hx, ih hxs, Run.bind]

theorem strchr_present (c : Char) (s : CStr) (h : c ∈ s) : (strchr s c).isNone = false := by
  induction s with
  | nil => simp at h
  | cons x xs ih =>
    by_cases hx : x = c
    · simp [strchr, hx]
    · have hxs : c ∈ xs := by
        rcases List.mem_cons.mp h with e | e
        · exact absurd e.symm hx
        · exact e
      simp [strchr, hx, ih hxs]

/-- A line with exactly one ':' after its first two bytes: the second scan of
`default_read` finds no delimiter before the terminator. -/
theorem default_read_one_delimiter (view : View) (p q : Char) (name rest : CStr)
    (hname : ':' ∉ name) (hrest : ':' ∉ rest) :
    default_read view (p :: q :: (name ++ ':' :: rest)) = .undef := by
  simp only [default_read, List.length_cons, List.drop_succ_cons, List.drop_zero,
    strsplit_delimited _ _ _ hname, strchr_delimited _ _ _ hname,
    strsplit_absent _ (by decide) _ hrest, Run.bind]
  split_ifs <;> rfl

/-- Such a line passes both tests of the loop of `update_view` unless it
begins with the sentinel, so the loop hands it to `default_read`. -/
theorem update_view_loop_one_delimiter (view : View) (p q last : Char) (name rest : CStr)
    (stream : List CStr) (n : Nat)
    (hname : ':' ∉ name) (hrest : ':' ∉ rest)
    (htop : strncmp (p :: q :: (name ++ ':' :: rest)) update_view_top
      update_view_top.length ≠ 0) :
    update_view_loop view ((p :: q :: (name ++ ':' :: rest) ++ [last]) :: stream) n =
      .undef := by
  have hstrip : ((p :: q :: (name ++ ':' :: rest)) ++ [last]).take
      (((p :: q :: (name ++ ':' :: rest)) ++ [last]).length - 1) =
      p :: q :: (name ++ ':' :: rest) := by
    rw [List.length_append, List.length_singleton, Nat.add_sub_cancel,
      List.take_left]
  have hsome : (strchr (p :: q :: (name ++ ':' :: rest)) ':').isNone = false :=
    strchr_present _ _ (by simp)
  rw [update_view_loop]
  simp only [hstrip, if_neg htop, hsome, Bool.false_eq_true, if_false,
    default_read_one_delimiter view p q name rest hname hrest]

/-- C15. The line "12:hello" (what `grep -n` prints for a match when it is given
a single file) does not begin with "Binary file" and contains a ':', so it
passes the filter of `update_view`; in `default_read`, after the first two bytes
are skipped, the first scan stops at once and the second scan, over "hello",
finds no ':' before the terminator: `strsplit` reads past the end of the string
and `strchr` returns NULL. -/
theorem default_read_scan_past_terminator :
    strncmp "12:hello".toList update_view_top update_view_top.length ≠ 0 ∧
    (strchr "12:hello".toList ':').isNone = false ∧
    strsplit ("12:hello".toList.drop 2) ':' = .ret [] ∧
    strchr ("12:hello".toList.drop 2) ':' = some ":hello".toList ∧
    strsplit "hello".toList ':' = .undef ∧
    strchr "hello".toList ':' = none ∧
    default_read { mkView 0 10 0 0 with alloc := 10 } "12:hello".toList = .undef ∧
    update_view (startView 10 80 ["12:hello\n".toList]) = .undef := by
  decide

/-! ## Display width and tab expansion -/

theorem strlength_no_tab (s : CStr) (h : '\t' ∉ s) : strlength s = s.length := by
  induction s with
  | nil => rfl
  | cons c cs ih =>
    have hc : c ≠ '\t' := fun e => h (by simp [e])
    have hcs : '\t' ∉ cs := fun e => h (by simp [e])
    simp only [strlength, if_neg hc, ih hcs, List.length_cons]
    push_cast; omega

theorem string_expand_from_no_tab (dstlen tabsize : Nat) (s : CStr) (h : '\t' ∉ s) :
    ∀ size, size + s.length ≤ dstlen - 1 →
      string_expand_from dstlen tabsize s size = (s, s.length) := by
  induction s with
  | nil => intro size _; rfl
  | cons c cs ih =>
    intro size hsz
    have hc : c ≠ '\t' := fun e => h (by simp [e])
    have hcs : '\t' ∉ cs := fun e => h (by simp [e])
    simp only [List.length_cons] at hsz
    have hlt : size < dstlen - 1 := by omega
    simp only [string_expand_from, hlt, not_true_eq_false, if_false, if_neg hc,
      ih hcs (size + 1) (by omega), List.length_cons]

/-- Without a tab in the content the two computations agree: the width that
`default_render` compares is the length of the expanded text. -/
theorem strlength_eq_expand_no_tab (s : CStr) (h : '\t' ∉ s) (hlen : s.length ≤ 127) :
    strlength s = ((string_expand 1024 s opt_tab_size.toNat).1.length : Int) := by
  rw [strlength_no_tab s h, string_expand,
    string_expand_from_no_tab 1024 _ s h 0 (by omega)]

/-- With tabs `strlength` never undercounts: it is at least the length of the
text that `string_expand` produces with tab stops every 8 columns. -/
theorem expand_length_le_strlength (s : CStr) :
    ∀ size, (((string_expand_from 1024 8 s size).1.length : Nat) : Int) ≤ strlength s := by
  induction s with
  | nil => intro size; simp [string_expand_from, strlength]
  | cons c cs ih =>
    intro size
    have hs : 0 ≤ strlength cs := le_trans (Int.ofNat_nonneg _) (ih 0)
    simp only [string_expand_from, strlength, opt_tab_size]
    by_cases hlt : size < 1024 - 1
    · simp only [hlt, not_true_eq_false, if_false]
      by_cases hc : c = '\t'
      · simp only [hc, if_true, List.length_append, List.length_replicate]
        have := ih (size + if 8 - size % 8 + size ≥ 1024 - 1 then 1024 - size - 1
          else 8 - size % 8)
        split_ifs at this ⊢ <;> push_cast <;> omega
      · simp only [hc, if_false, List.length_cons]
        have := ih (size + 1)
        push_cast; omega
    · simp only [hlt, not_false_eq_true, if_true, List.length_nil]
      split_ifs <;> push_cast <;> omega

/-- The loop of `update_view`, started with a counter `n ≥ 1` and `n` free
slots: it calls `default_read` at most `n` times, every call writes at an index
within the allocation, and when the loop returns the store has grown by the
number of calls. -/
theorem update_view_loop_writes_bound (stream : List CStr) :
    ∀ (view : View) (n : Nat),
      view.line.length = view.lines → 1 ≤ n → view.lines + n ≤ view.alloc →
      view.alloc < 9223372036854775808 →
      (update_view_loop_writes view stream n).length ≤ n ∧
      (∀ i ∈ update_view_loop_writes view stream n, view.lines ≤ i ∧ i < view.alloc) ∧
      (∀ r, update_view_loop view stream n = .ret r →
        r.1.lines = view.lines + (update_view_loop_writes view stream n).length ∧
        r.1.alloc = view.alloc ∧ r.1.height = view.height) := by
  induction stream with
  | nil =>
    intro view n _ _ _ _
    refine ⟨by simp [update_view_loop_writes], by simp [update_view_loop_writes], ?_⟩
    intro r h
    simp only [update_view_loop] at h
    cases h
    simp [update_view_loop_writes]
  | cons raw rest ih =>
    intro view n hs hn hroom hA
    rw [update_view_loop_writes, update_view_loop]
    by_cases c1 : strncmp (raw.take (raw.length - 1)) update_view_top
        update_view_top.length = 0
    · simp only [c1, if_true]
      exact ih view n hs hn hroom hA
    · simp only [c1, if_false]
      by_cases c2 : (strchr (raw.take (raw.length - 1)) ':').isNone = true
      · simp only [c2, if_true]
        exact ih view n hs hn hroom hA
      · simp only [c2, Bool.false_eq_true, if_false]
        cases hd : default_read view (raw.take (raw.length - 1)) with
        | ret view2 =>
          obtain ⟨s1, s2, -, -, -, s6, -, s8, -⟩ :=
            default_read_store view view2 _ hs (by omega) hd
          by_cases c3 : n = 1
          · simp only [c3, if_true, List.length_singleton, List.mem_singleton]
            refine ⟨le_refl _, fun i hi => by omega, ?_⟩
            intro r h
            cases h
            exact ⟨s2, s8, s6⟩
          · have e : usub n 1 = n - 1 := usub_small _ _ hn (by omega)
            simp only [c3, if_false, e]
            obtain ⟨t1, t2, t3⟩ := ih view2 (n - 1) s1 (by omega) (by omega) (by omega)
            refine ⟨?_, ?_, ?_⟩
            · simp only [List.length_cons]; omega
            · intro i hi
              rcases List.mem_cons.mp hi with e1 | e1
              · omega
              · have := t2 i e1; omega
            · intro r h
              obtain ⟨u1, u2, u3⟩ := t3 r h
              simp only [List.length_cons]
              exact ⟨by omega, by omega, u3.trans s6⟩
        | abort k =>
          simp only [List.length_singleton, List.mem_singleton]
          exact ⟨hn, fun i hi => by omega, fun r h => by cases h⟩
        | undef =>
          simp only [List.length_singleton, List.mem_singleton]
          exact ⟨hn, fun i hi => by omega, fun r h => by cases h⟩
        | exit k =>
          simp only [List.length_singleton, List.mem_singleton]
          exact ⟨hn, fun i hi => by omega, fun r h => by cases h⟩

theorem update_view_capacity_eq (view : View) (hh : 0 ≤ view.height)
    (h2 : view.height < 2147483648) (hl : view.lines < 1152921504606846976) :
    update_view_capacity view = view.lines + view.height.toNat := by
  have e4 : to_ulong view.height = view.height.toNat :=
    to_ulong_nonneg _ hh (by omega)
  have e1 : uadd view.lines view.height.toNat = view.lines + view.height.toNat :=
    uadd_small _ _ (by omega)
  rw [update_view_capacity, e4, e1]
  omega

/-! ## Raw lines consumed by one batch -/

/-- The loop of `update_view`, started with a counter `n ≥ 1`: the lines it
takes from the stream are a beginning of the stream, at most `n` of them pass
the filter (exactly `n` when the loop stops before the end of the stream), and
the others were dropped. -/
theorem update_view_loop_consumed (stream : List CStr) :
    ∀ (view : View) (n : Nat) (r : View × List CStr × Bool),
      1 ≤ n → n < 18446744073709551616 →
      update_view_loop view stream n = .ret r →
      ∃ consumed, stream = consumed ++ r.2.1 ∧
        consumed.countP (fun raw => update_view_keeps (raw.take (raw.length - 1))) ≤ n ∧
        (r.2.2 = true → r.2.1 = []) ∧
        (r.2.2 = false →
          consumed.countP (fun raw => update_view_keeps (raw.take (raw.length - 1))) = n) := by
  induction stream with
  | nil =>
    intro view n r _ _ h
    simp only [update_view_loop] at h
    cases h
    exact ⟨[], rfl, Nat.zero_le _, fun _ => rfl, fun h => by cases h⟩
  | cons raw rest ih =>
    intro view n r hn hN h
    rw [update_view_loop] at h
    by_cases c1 : strncmp (raw.take (raw.length - 1)) update_view_top
        update_view_top.length = 0
    · simp only [c1, if_true] at h
      obtain ⟨consumed, e, k1, k2, k3⟩ := ih view n r hn hN h
      have hk : update_view_keeps (raw.take (raw.length - 1)) = false := by
        simp [update_view_keeps, c1]
      exact ⟨raw :: consumed, by rw [e]; rfl,
        (by simp only [List.countP_cons, hk, Bool.false_eq_true, if_false]; exact k1), k2,
        fun h => by
          simp only [List.countP_cons, hk, Bool.false_eq_true, if_false]; exact k3 h⟩
    · simp only [c1, if_false] at h
      by_cases c2 : (strchr (raw.take (raw.length - 1)) ':').isNone = true
      · simp only [c2, if_true] at h
        obtain ⟨consumed, e, k1, k2, k3⟩ := ih view n r hn hN h
        have hk : update_view_keeps (raw.take (raw.length - 1)) = false := by
          simp [update_view_keeps, c2]
        exact ⟨raw :: consumed, by rw [e]; rfl,
          (by simp only [List.countP_cons, hk, Bool.false_eq_true, if_false]; exact k1), k2,
          fun h => by
            simp only [List.countP_cons, hk, Bool.false_eq_true, if_false]; exact k3 h⟩
      · simp only [c2, Bool.false_eq_true, if_false] at h
        have hk : update_view_keeps (raw.take (raw.length - 1)) = true := by
          simp [update_view_keeps, c1, c2]
        cases hd : default_read view (raw.take (raw.length - 1)) with
        | ret view2 =>
          rw [hd] at h
          by_cases c3 : n = 1
          · simp only [c3, if_true] at h
            cases h
            refine ⟨[raw], rfl, ?_, (fun h => by cases h), fun _ => ?_⟩
            · simp only [List.countP_cons, List.countP_nil, hk, if_true]; omega
            · simp only [List.countP_cons, List.countP_nil, hk, if_true]; omega
          · have e : usub n 1 = n - 1 := usub_small _ _ hn hN
            simp only [c3, if_false, e] at h
            obtain ⟨consumed, e2, k1, k2, k3⟩ := ih view2 (n - 1) r (by omega) (by omega) h
            refine ⟨raw :: consumed, by rw [e2]; rfl, ?_, k2, fun h => ?_⟩
            · simp only [List.countP_cons, hk, if_true]; omega
            · simp only [List.countP_cons, hk, if_true, k3 h]; omega
        | abort k => rw [hd] at h; cases h
        | undef => rw [hd] at h; cases h
        | exit k => rw [hd] at h; cases h

theorem split_two_delimiters (c : Char) (s : CStr) (h : 2 ≤ s.count c) :
    ∃ name number rest, s = name ++ c :: (number ++ c :: rest) ∧ c ∉ name ∧ c ∉ number := by
  have h1 : c ∈ s := List.count_pos_iff.mp (by omega)
  obtain ⟨name, bs, e1, hn⟩ := List.eq_append_cons_of_mem h1
  have hc : s.count c = bs.count c + 1 := by
    rw [e1, List.count_append, List.count_cons_self, List.count_eq_zero.mpr hn]; omega
  have h2 : c ∈ bs := List.count_pos_iff.mp (by omega)
  obtain ⟨number, rest, e2, hm⟩ := List.eq_append_cons_of_mem h2
  exact ⟨name, number, rest, by rw [e1, e2], hn, hm⟩

/-- With a free slot in the line index, `default_read` returns exactly on the
lines that have two ':' after their first two bytes; on every other line a scan
runs past the terminator. -/
theorem default_read_returns_iff (view : View) (line : CStr) (hroom : view.lines < view.alloc) :
    (∃ v2, default_read view line = .ret v2) ↔ two_delimiters line = true := by
  constructor
  · rintro ⟨v2, h⟩
    by_contra hnot
    have hu : default_read view line = .undef := by
      by_cases hlen : line.length < 2
      · simp only [default_read, if_pos hlen]
      · obtain ⟨p, q, s, rfl⟩ : ∃ p q s, line = p :: q :: s := by
          match line, hlen with
          | p :: q :: s, _ => exact ⟨p, q, s, rfl⟩
          | [_], hl => simp at hl
          | [], hl => simp at hl
        have hcount : s.count ':' < 2 := by
          simp only [two_delimiters, List.length_cons, List.drop_succ_cons, List.drop_zero,
            Bool.and_eq_true, decide_eq_true_eq, not_and, not_le] at hnot
          exact hnot (by omega)
        by_cases hm : ':' ∈ s
        · obtain ⟨name, rest, e1, hn⟩ := List.eq_append_cons_of_mem hm
          have hr : ':' ∉ rest := by
            apply List.count_eq_zero.mp
            rw [e1, List.count_append, List.count_cons_self,
              List.count_eq_zero.mpr hn] at hcount
            omega
          rw [e1]
          exact default_read_one_delimiter view p q name rest hn hr
        · simp only [default_read, List.length_cons, List.drop_succ_cons, List.drop_zero,
            strsplit_absent _ (by decide) _ hm, Run.bind]
          split_ifs <;> rfl
    rw [hu] at h
    cases h
  · intro h
    simp only [two_delimiters, Bool.and_eq_true, decide_eq_true_eq] at h
    obtain ⟨hlen, hcount⟩ := h
    obtain ⟨p, q, s, rfl⟩ : ∃ p q s, line = p :: q :: s := by
      match line, hlen with
      | p :: q :: s, _ => exact ⟨p, q, s, rfl⟩
      | [_], hl => simp at hl
      | [], hl => simp at hl
    simp only [List.drop_succ_cons, List.drop_zero] at hcount
    obtain ⟨name, number, rest, e, hn, hm⟩ := split_two_delimiters ':' s hcount
    rw [e]
    simp only [default_read, List.length_cons, List.drop_succ_cons, List.drop_zero,
      strsplit_delimited _ _ _ hn, strchr_delimited _ _ _ hn,
      strsplit_delimited _ _ _ hm, strchr_delimited _ _ _ hm, Run.bind]
    rw [if_neg (by omega), if_neg (by omega)]
    exact ⟨_, rfl⟩

/-- With room for `n` records the loop of `update_view` returns when every line
that passes its filter has its two delimiters. -/
theorem update_view_loop_returns (stream : List CStr) :
    ∀ (view : View) (n : Nat),
      view.line.length = view.lines → 1 ≤ n → view.lines + n ≤ view.alloc →
      view.alloc < 9223372036854775808 →
      (∀ raw ∈ stream, update_view_keeps (raw.take (raw.length - 1)) = true →
        two_delimiters (raw.take (raw.length - 1)) = true) →
      ∃ r, update_view_loop view stream n = .ret r := by
  induction stream with
  | nil => intro view n _ _ _ _ _; exact ⟨_, rfl⟩
  | cons raw rest ih =>
    intro view n hs hn hroom hA hall
    have hrest : ∀ raw ∈ rest, update_view_keeps (raw.take (raw.length - 1)) = true →
        two_delimiters (raw.take (raw.length - 1)) = true :=
      fun r hr => hall r (List.mem_cons_of_mem _ hr)
    rw [update_view_loop]
    by_cases c1 : strncmp (raw.take (raw.length - 1)) update_view_top
        update_view_top.length = 0
    · simp only [c1, if_true]
      exact ih view n hs hn hroom hA hrest
    · simp only [c1, if_false]
      by_cases c2 : (strchr (raw.take (raw.length - 1)) ':').isNone = true
      · simp only [c2, if_true]
        exact ih view n hs hn hroom hA hrest
      · simp only [c2, Bool.false_eq_true, if_false]
        have hk : update_view_keeps (raw.take (raw.length - 1)) = true := by
          simp [update_view_keeps, c1, c2]
        obtain ⟨view2, hd⟩ := (default_read_returns_iff view _ (by omega)).mpr
          (hall raw (List.mem_cons_self _ _) hk)
        obtain ⟨s1, s2, -, -, -, -, -, s8, -⟩ :=
          default_read_store view view2 _ hs (by omega) hd
        rw [hd]
        by_cases c3 : n = 1
        · simp only [c3, if_true]
          exact ⟨_, rfl⟩
        · have e : usub n 1 = n - 1 := usub_small _ _ hn (by omega)
          simp only [c3, if_false, e]
          exact ih view2 (n - 1) s1 (by omega) (by omega) (by omega) hrest

/-- The row from which `update_view` redraws (lines 621-622 and 652-660) lies
in the window, so the assertion of `redraw_view_from` holds. -/
theorem redraw_from_in_window (o l : Nat) (h : Int) (hol : o ≤ l)
    (hl : l < 9223372036854775808) (hh : 1 ≤ h) (h2 : h < 2147483648)
    (rf : Int)
    (hrf : rf = if uadd o (to_ulong h) ≥ l then to_int (usub l o) else -1) :
    (if rf > 0 then rf - 1 else rf) ≥ 0 →
      0 ≤ (if rf > 0 then rf - 1 else rf) ∧ (if rf > 0 then rf - 1 else rf) < h := by
  subst hrf
  unfold uadd to_ulong to_int usub
  intro _
  split_ifs <;> omega

/-- C12, as stated, fails: with height 1 a call of `update_view` takes three
raw lines from the producer (a sentinel line, a line without delimiter and one
result line) before it stops; only the fourth line is left in the stream. -/
theorem update_view_consumes_more_than_height :
    update_view (startView 1 80
      ["Binary file ./a matches\n".toList, "no delimiter\n".toList,
       "./x.c:1:a\n".toList, "./y.c:2:b\n".toList]) =
      .ret ({ height := 1, width := 80, offset := 0, lineno := 0, lines := 1,
              line := [{ name := "x.c".toList, number := "1".toList,
                         content := "a".toList }],
              alloc := 1, pipe := some ["./y.c:2:b\n".toList] }, true) ∧
    ¬ (["Binary file ./a matches\n".toList, "no delimiter\n".toList,
        "./x.c:1:a\n".toList].length ≤ 1) := by
  decide

/-- C12, amended. For every producer stream and every viewport height H ≥ 1, a
call of `update_view` that returns has taken a beginning of the stream of which
at most H lines pass the filter (exactly H when it stops before the end of the
stream); sentinel lines and lines without ':' are taken in addition and are not
counted. The call returns whenever every line that passes the filter has its
two delimiters. -/
theorem update_view_consumes (view : View) (stream : List CStr)
    (hp : view.pipe = some stream) (hstore : view.line.length = view.lines)
    (hh : 1 ≤ view.height) (h2 : view.height < 2147483648)
    (hl : view.lines < 1152921504606846976) (hoff : view.offset ≤ view.lines) :
    (∀ v2 flag, update_view view = .ret (v2, flag) →
      ∃ consumed rest, stream = consumed ++ rest ∧
        v2.pipe = (if flag then some rest else none) ∧
        consumed.countP (fun raw => update_view_keeps (raw.take (raw.length - 1))) ≤
          view.height.toNat ∧
        (flag = true →
          consumed.countP (fun raw => update_view_keeps (raw.take (raw.length - 1))) =
            view.height.toNat) ∧
        (flag = false → rest = [])) ∧
    ((∀ raw ∈ stream, update_view_keeps (raw.take (raw.length - 1)) = true →
        two_delimiters (raw.take (raw.length - 1)) = true) →
      ∃ v2 flag, update_view view = .ret (v2, flag)) := by
  have hcap := update_view_capacity_eq view (by omega) h2 hl
  have e4 : to_ulong view.height = view.height.toNat :=
    to_ulong_nonneg _ (by omega) (by omega)
  obtain ⟨height, width, offset, lineno, lines, line, alloc, pipe⟩ := view
  simp only at hp hstore hh h2 hl hoff hcap e4 ⊢
  subst hp
  constructor
  · intro v2 flag h
    rw [update_view] at h
    simp only at h
    obtain ⟨r, hr, h⟩ := Run.bind_eq_ret h
    obtain ⟨_, _, h⟩ := Run.bind_eq_ret h
    obtain ⟨consumed, e, k1, k2, k3⟩ :=
      update_view_loop_consumed stream _ _ r (by omega) (by omega) hr
    rw [e4] at k1 k3
    refine ⟨consumed, r.2.1, e, ?_, k1, ?_, ?_⟩
    · split_ifs at h <;> cases h <;> rfl
    · intro hf
      apply k3
      split_ifs at h with c
      · cases h; cases hf
      · simpa using c
    · intro hf
      apply k2
      split_ifs at h with c
      · exact c
      · cases h; cases hf
  · intro hall
    obtain ⟨r, hr⟩ := update_view_loop_returns stream
      { height := height, width := width, offset := offset, lineno := lineno, lines := lines,
        line := line,
        alloc := update_view_capacity
          { height := height, width := width, offset := offset, lineno := lineno,
            lines := lines, line := line, alloc := alloc, pipe := some stream },
        pipe := some stream }
      (to_ulong height) hstore (by omega) (by simp only [hcap]; omega)
      (by simp only [hcap]; omega) hall
    obtain ⟨-, -, b3⟩ := update_view_loop_writes_bound stream
      { height := height, width := width, offset := offset, lineno := lineno, lines := lines,
        line := line,
        alloc := update_view_capacity
          { height := height, width := width, offset := offset, lineno := lineno,
            lines := lines, line := line, alloc := alloc, pipe := some stream },
        pipe := some stream }
      (to_ulong height) hstore (by omega) (by simp only [hcap]; omega)
      (by simp only [hcap]; omega)
    obtain ⟨-, -, u3⟩ := b3 r hr
    have hwin := redraw_from_in_window offset lines height hoff (by omega) hh h2 _ rfl
    have hloop : update_view_loop
        { height := height, width := width, offset := offset, lineno := lineno,
          lines := lines, line := line,
          alloc := 8 * uadd lines (to_ulong height) % 18446744073709551616 / 8,
          pipe := some stream } stream (to_ulong height) = .ret r := hr
    rw [update_view]
    simp only [hloop, Run.bind, redraw_view_from, u3]
    by_cases c : (if (if uadd offset (to_ulong height) ≥ lines
        then to_int (usub lines offset) else -1) > 0
        then (if uadd offset (to_ulong height) ≥ lines
          then to_int (usub lines offset) else -1) - 1
        else (if uadd offset (to_ulong height) ≥ lines
          then to_int (usub lines offset) else -1)) ≥ 0
    · rw [if_pos c, if_pos (hwin c)]
      by_cases ce : r.2.2 = true
      · rw [if_pos ce]; exact ⟨_, _, rfl⟩
      · rw [if_neg ce]; exact ⟨_, _, rfl⟩
    · rw [if_neg c]
      by_cases ce : r.2.2 = true
      · rw [if_pos ce]; exact ⟨_, _, rfl⟩
      · rw [if_neg ce]; exact ⟨_, _, rfl⟩

theorem update_view_consumes_witness :
    ∃ v2 flag, update_view (startView 1 80
      ["Binary file ./a matches\n".toList, "no delimiter\n".toList,
       "./x.c:1:a\n".toList, "./y.c:2:b\n".toList]) = .ret (v2, flag) :=
  (update_view_consumes (startView 1 80
      ["Binary file ./a matches\n".toList, "no delimiter\n".toList,
       "./x.c:1:a\n".toList, "./y.c:2:b\n".toList])
    ["Binary file ./a matches\n".toList, "no delimiter\n".toList,
     "./x.c:1:a\n".toList, "./y.c:2:b\n".toList]
    rfl (by decide) (by decide) (by decide) (by decide) (by decide)).2 (by decide)


/-! ## Writes of one batch stay inside the reallocated index -/

theorem Run.bind_eq_undef {α β : Type} {r : Run α} {f : α → Run β}
    (h : r.bind f = .undef) : r = .undef ∨ ∃ a, r = .ret a ∧ f a = .undef := by
  cases r with
  | ret a => exact Or.inr ⟨a, rfl, h⟩
  | abort n => cases h
  | undef => exact Or.inl rfl
  | exit s => cases h

/-- With room for `n` records the loop of `update_view` is undefined only at a
line that passed the filter and lacks one of its two delimiters: the write of
`default_read` is never the cause. -/
theorem update_view_loop_undef (stream : List CStr) :
    ∀ (view : View) (n : Nat),
      view.line.length = view.lines → 1 ≤ n → view.lines + n ≤ view.alloc →
      view.alloc < 9223372036854775808 →
      update_view_loop view stream n = .undef →
      ∃ raw ∈ stream, update_view_keeps (raw.take (raw.length - 1)) = true ∧
        two_delimiters (raw.take (raw.length - 1)) = false := by
  induction stream with
  | nil => intro view n _ _ _ _ h; cases h
  | cons raw rest ih =>
    intro view n hs hn hroom hA h
    have lift : (∃ raw ∈ rest, update_view_keeps (raw.take (raw.length - 1)) = true ∧
        two_delimiters (raw.take (raw.length - 1)) = false) →
        ∃ r ∈ raw :: rest, update_view_keeps (r.take (r.length - 1)) = true ∧
          two_delimiters (r.take (r.length - 1)) = false :=
      fun ⟨r, hr, k⟩ => ⟨r, List.mem_cons_of_mem _ hr, k⟩
    rw [update_view_loop] at h
    by_cases c1 : strncmp (raw.take (raw.length - 1)) update_view_top
        update_view_top.length = 0
    · simp only [c1, if_true] at h
      exact lift (ih view n hs hn hroom hA h)
    · simp only [c1, if_false] at h
      by_cases c2 : (strchr (raw.take (raw.length - 1)) ':').isNone = true
      · simp only [c2, if_true] at h
        exact lift (ih view n hs hn hroom hA h)
      · simp only [c2, Bool.false_eq_true, if_false] at h
        have hk : update_view_keeps (raw.take (raw.length - 1)) = true := by
          simp [update_view_keeps, c1, c2]
        cases hd : default_read view (raw.take (raw.length - 1)) with
        | ret view2 =>
          rw [hd] at h
          obtain ⟨s1, s2, -, -, -, -, -, s8, -⟩ :=
            default_read_store view view2 _ hs (by omega) hd
          by_cases c3 : n = 1
          · simp only [c3, if_true] at h
            cases h
          · have e : usub n 1 = n - 1 := usub_small _ _ hn (by omega)
            simp only [c3, if_false, e] at h
            exact lift (ih view2 (n - 1) s1 (by omega) (by omega) (by omega) h)
        | abort k => rw [hd] at h; cases h
        | exit k => rw [hd] at h; cases h
        | undef =>
          refine ⟨raw, List.mem_cons_self _ _, hk, ?_⟩
          cases ht : two_delimiters (raw.take (raw.length - 1)) with
          | false => rfl
          | true =>
            obtain ⟨v2, hv2⟩ := (default_read_returns_iff view _ (by omega)).mpr ht
            rw [hd] at hv2
            cases hv2

/-- With room for `n` records a loop of `update_view` that returns leaves the
index in step with `view->lines`, at most `n` records longer, its earlier
records and its capacity as they were. -/
theorem update_view_loop_in_room (stream : List CStr) :
    ∀ (view : View) (n : Nat) (r : View × List CStr × Bool),
      view.line.length = view.lines → 1 ≤ n → view.lines + n ≤ view.alloc →
      view.alloc < 9223372036854775808 →
      update_view_loop view stream n = .ret r →
      r.1.line.length = r.1.lines ∧ view.lines ≤ r.1.lines ∧
      r.1.lines ≤ view.lines + n ∧ r.1.alloc = view.alloc ∧
      r.1.line.take view.lines = view.line := by
  induction stream with
  | nil =>
    intro view n r hs _ _ _ h
    simp only [update_view_loop] at h
    cases h
    refine ⟨hs, le_refl _, Nat.le_add_right _ _, rfl, ?_⟩
    show view.line.take view.lines = view.line
    rw [← hs]
    exact List.take_length _
  | cons raw rest ih =>
    intro view n r hs hn hroom hA h
    rw [update_view_loop] at h
    by_cases c1 : strncmp (raw.take (raw.length - 1)) update_view_top
        update_view_top.length = 0
    · simp only [c1, if_true] at h
      exact ih view n r hs hn hroom hA h
    · simp only [c1, if_false] at h
      by_cases c2 : (strchr (raw.take (raw.length - 1)) ':').isNone = true
      · simp only [c2, if_true] at h
        exact ih view n r hs hn hroom hA h
      · simp only [c2, Bool.false_eq_true, if_false] at h
        cases hd : default_read view (raw.take (raw.length - 1)) with
        | ret view2 =>
          rw [hd] at h
          obtain ⟨s1, s2, s3, -, -, -, -, s8, -⟩ :=
            default_read_store view view2 _ hs (by omega) hd
          by_cases c3 : n = 1
          · simp only [c3, if_true] at h
            cases h
            exact ⟨s1, (Nat.le_add_right _ 1).trans (le_of_eq s2.symm),
              le_of_eq (s2.trans (by rw [c3])), s8, s3⟩
          · have e : usub n 1 = n - 1 := usub_small _ _ hn (by omega)
            simp only [c3, if_false, e] at h
            obtain ⟨t1, t2, t3, t4, t5⟩ :=
              ih view2 (n - 1) r s1 (by omega) (by omega) (by omega) h
            refine ⟨t1, by omega, by omega, t4.trans s8, ?_⟩
            have e2 : (r.1.line.take view2.lines).take view.lines =
                r.1.line.take view.lines := by
              rw [List.take_take, Nat.min_eq_left (by omega)]
            rw [← e2, t5, s3]
        | abort k => rw [hd] at h; cases h
        | undef => rw [hd] at h; cases h
        | exit k => rw [hd] at h; cases h

/-- One batch on a live pipe, stated on `update_view` itself. A call that
returns leaves a view whose capacity is the n + H slots of the `realloc` of
line 624 and whose store fits in it; a call is undefined only at a line that
passed the filter and lacks one of its two delimiters; and when every such line
has them the call returns. -/
theorem update_view_batch (view : View) (stream : List CStr)
    (hp : view.pipe = some stream) (hstore : view.line.length = view.lines)
    (hh : 1 ≤ view.height) (h2 : view.height < 2147483648)
    (hl : view.lines < 1152921504606846976) :
    (∀ v2 flag, update_view view = .ret (v2, flag) →
      v2.alloc = view.lines + view.height.toNat ∧ v2.lines ≤ v2.alloc ∧
      v2.line.length = v2.lines ∧ view.lines ≤ v2.lines ∧
      v2.line.take view.lines = view.line) ∧
    (update_view view = .undef →
      ∃ raw ∈ stream, update_view_keeps (raw.take (raw.length - 1)) = true ∧
        two_delimiters (raw.take (raw.length - 1)) = false) ∧
    (view.offset ≤ view.lines →
      (∀ raw ∈ stream, update_view_keeps (raw.take (raw.length - 1)) = true →
        two_delimiters (raw.take (raw.length - 1)) = true) →
      ∃ v2 flag, update_view view = .ret (v2, flag)) := by
  have hcap := update_view_capacity_eq view (by omega) h2 hl
  have e4 : to_ulong view.height = view.height.toNat :=
    to_ulong_nonneg _ (by omega) (by omega)
  obtain ⟨height, width, offset, lineno, lines, line, alloc, pipe⟩ := view
  simp only at hp hstore hh h2 hl hcap e4 ⊢
  subst hp
  have hroom := update_view_loop_in_room stream
    { height := height, width := width, offset := offset, lineno := lineno, lines := lines,
      line := line,
      alloc := update_view_capacity
        { height := height, width := width, offset := offset, lineno := lineno,
          lines := lines, line := line, alloc := alloc, pipe := some stream },
      pipe := some stream }
    (to_ulong height)
  have hundef := update_view_loop_undef stream
    { height := height, width := width, offset := offset, lineno := lineno, lines := lines,
      line := line,
      alloc := update_view_capacity
        { height := height, width := width, offset := offset, lineno := lineno,
          lines := lines, line := line, alloc := alloc, pipe := some stream },
      pipe := some stream }
    (to_ulong height) hstore (by omega) (by simp only [hcap]; omega)
    (by simp only [hcap]; omega)
  refine ⟨?_, ?_, ?_⟩
  · intro v2 flag h
    rw [update_view] at h
    simp only at h
    obtain ⟨r, hr, h⟩ := Run.bind_eq_ret h
    obtain ⟨_, _, h⟩ := Run.bind_eq_ret h
    obtain ⟨u1, u2, u3, u4, u5⟩ := hroom r hstore (by omega) (by simp only [hcap]; omega)
      (by simp only [hcap]; omega) hr
    simp only [hcap] at u4
    simp only at u1 u2 u3 u5
    rw [e4] at u3
    have hv : v2.lines = r.1.lines ∧ v2.alloc = r.1.alloc ∧ v2.line = r.1.line := by
      split_ifs at h <;> cases h <;> exact ⟨rfl, rfl, rfl⟩
    rw [hv.1, hv.2.1, hv.2.2, u4]
    exact ⟨rfl, u3, u1, u2, u5⟩
  · intro h
    rw [update_view] at h
    simp only at h
    rcases Run.bind_eq_undef h with h | ⟨r, -, h⟩
    · exact hundef h
    · rcases Run.bind_eq_undef h with h | ⟨_, -, h⟩
      · rw [redraw_view_from] at h
        split_ifs at h
      · split_ifs at h
  · intro hoff hall
    obtain ⟨r, hr⟩ := update_view_loop_returns stream
      { height := height, width := width, offset := offset, lineno := lineno, lines := lines,
        line := line,
        alloc := update_view_capacity
          { height := height, width := width, offset := offset, lineno := lineno,
            lines := lines, line := line, alloc := alloc, pipe := some stream },
        pipe := some stream }
      (to_ulong height) hstore (by omega) (by simp only [hcap]; omega)
      (by simp only [hcap]; omega) hall
    obtain ⟨-, -, b3⟩ := update_view_loop_writes_bound stream
      { height := height, width := width, offset := offset, lineno := lineno, lines := lines,
        line := line,
        alloc := update_view_capacity
          { height := height, width := width, offset := offset, lineno := lineno,
            lines := lines, line := line, alloc := alloc, pipe := some stream },
        pipe := some stream }
      (to_ulong height) hstore (by omega) (by simp only [hcap]; omega)
      (by simp only [hcap]; omega)
    obtain ⟨-, -, u3⟩ := b3 r hr
    have hwin := redraw_from_in_window offset lines height hoff (by omega) hh h2 _ rfl
    have hloop : update_view_loop
        { height := height, width := width, offset := offset, lineno := lineno,
          lines := lines, line := line,
          alloc := 8 * uadd lines (to_ulong height) % 18446744073709551616 / 8,
          pipe := some stream } stream (to_ulong height) = .ret r := hr
    rw [update_view]
    simp only [hloop, Run.bind, redraw_view_from, u3]
    by_cases c : (if (if uadd offset (to_ulong height) ≥ lines
        then to_int (usub lines offset) else -1) > 0
        then (if uadd offset (to_ulong height) ≥ lines
          then to_int (usub lines offset) else -1) - 1
        else (if uadd offset (to_ulong height) ≥ lines
          then to_int (usub lines offset) else -1)) ≥ 0
    · rw [if_pos c, if_pos (hwin c)]
      by_cases ce : r.2.2 = true
      · rw [if_pos ce]; exact ⟨_, _, rfl⟩
      · rw [if_neg ce]; exact ⟨_, _, rfl⟩
    · rw [if_neg c]
      by_cases ce : r.2.2 = true
      · rw [if_pos ce]; exact ⟨_, _, rfl⟩
      · rw [if_neg ce]; exact ⟨_, _, rfl⟩

/-- C13. For every producer stream, every store of n records and every
viewport height H ≥ 1, one call of `update_view` reallocates the line index to
n + H slots and calls `default_read` at most H times, so it appends at most H
records, and every write `view->line[view->lines++]` of those calls uses an
index below n + H. On `update_view` itself: a call that returns leaves a view
of capacity n + H whose store holds at most n + H records, the first n of them
unchanged; the call is undefined only at a line that passed the filter and
lacks one of its two delimiters, never at a write; and when every line that
passes the filter has its two delimiters the call returns. -/
theorem update_view_writes_in_capacity (view : View)
    (hstore : view.line.length = view.lines) (hh : 1 ≤ view.height)
    (h2 : view.height < 2147483648) (hl : view.lines < 1152921504606846976) :
    update_view_capacity view = view.lines + view.height.toNat ∧
    (update_view_writes view).length ≤ view.height.toNat ∧
    (∀ i ∈ update_view_writes view, i < update_view_capacity view) ∧
    (∀ v2 flag, update_view view = .ret (v2, flag) →
      v2.lines = view.lines + (update_view_writes view).length ∧
      v2.lines ≤ view.lines + view.height.toNat) ∧
    (∀ stream, view.pipe = some stream →
      (∀ v2 flag, update_view view = .ret (v2, flag) →
        v2.alloc = view.lines + view.height.toNat ∧ v2.lines ≤ v2.alloc ∧
        v2.line.length = v2.lines ∧ view.lines ≤ v2.lines ∧
        v2.line.take view.lines = view.line) ∧
      (update_view view = .undef →
        ∃ raw ∈ stream, update_view_keeps (raw.take (raw.length - 1)) = true ∧
          two_delimiters (raw.take (raw.length - 1)) = false) ∧
      (view.offset ≤ view.lines →
        (∀ raw ∈ stream, update_view_keeps (raw.take (raw.length - 1)) = true →
          two_delimiters (raw.take (raw.length - 1)) = true) →
        ∃ v2 flag, update_view view = .ret (v2, flag))) := by
  have hbatch := fun stream hp => update_view_batch view stream hp hstore hh h2 hl
  have hcap := update_view_capacity_eq view (by omega) h2 hl
  have e4 : to_ulong view.height = view.height.toNat :=
    to_ulong_nonneg _ (by omega) (by omega)
  refine ⟨hcap, ?_⟩
  suffices hw : (update_view_writes view).length ≤ view.height.toNat ∧
      (∀ i ∈ update_view_writes view, i < update_view_capacity view) ∧
      (∀ v2 flag, update_view view = .ret (v2, flag) →
        v2.lines = view.lines + (update_view_writes view).length ∧
        v2.lines ≤ view.lines + view.height.toNat) from
    ⟨hw.1, hw.2.1, hw.2.2, hbatch⟩
  clear hbatch
  obtain ⟨height, width, offset, lineno, lines, line, alloc, pipe⟩ := view
  simp only at hstore hh h2 hl hcap e4 ⊢
  cases pipe with
  | none =>
    refine ⟨Nat.zero_le _, fun i hi => by simp [update_view_writes] at hi, ?_⟩
    intro v2 flag h
    rw [update_view] at h
    cases h
    exact ⟨rfl, Nat.le_add_right _ _⟩
  | some stream =>
    obtain ⟨b1, b2, b3⟩ := update_view_loop_writes_bound stream
      { height := height, width := width, offset := offset, lineno := lineno, lines := lines,
        line := line,
        alloc := update_view_capacity
          { height := height, width := width, offset := offset, lineno := lineno,
            lines := lines, line := line, alloc := alloc, pipe := some stream },
        pipe := some stream }
      (to_ulong height) hstore (by omega) (by simp only [hcap]; omega)
      (by simp only [hcap]; omega)
    have b1h := b1.trans (le_of_eq e4)
    refine ⟨b1h, fun i hi => (b2 i hi).2, ?_⟩
    intro v2 flag h
    rw [update_view] at h
    simp only at h
    obtain ⟨r, hr, h⟩ := Run.bind_eq_ret h
    obtain ⟨_, _, h⟩ := Run.bind_eq_ret h
    obtain ⟨u1, _⟩ := b3 r hr
    have hv : v2.lines = r.1.lines := by
      split_ifs at h <;> cases h <;> rfl
    rw [hv, u1]
    exact ⟨rfl, Nat.add_le_add_left b1h _⟩

theorem update_view_writes_in_capacity_witness :
    update_view_writes
      (startView 2 80 ["./a.c:1:x\n".toList, "Binary file ./b matches\n".toList,
        "./c.c:2:y\n".toList, "./d.c:3:z\n".toList]) = [0, 1] ∧
    update_view_capacity
      (startView 2 80 ["./a.c:1:x\n".toList, "Binary file ./b matches\n".toList,
        "./c.c:2:y\n".toList, "./d.c:3:z\n".toList]) = 0 + (2 : Int).toNat ∧
    (update_view_writes
      (startView 2 80 ["./a.c:1:x\n".toList, "Binary file ./b matches\n".toList,
        "./c.c:2:y\n".toList, "./d.c:3:z\n".toList])).length ≤ (2 : Int).toNat ∧
    (∃ v2 flag, update_view
      (startView 2 80 ["./a.c:1:x\n".toList, "Binary file ./b matches\n".toList,
        "./c.c:2:y\n".toList, "./d.c:3:z\n".toList]) = .ret (v2, flag)) ∧
    update_view
      (startView 2 80 ["./a.c:1:x\n".toList, "Binary file ./b matches\n".toList,
        "./c.c:2:y\n".toList, "./d.c:3:z\n".toList]) =
      .ret ({ height := 2, width := 80, offset := 0, lineno := 0, lines := 2,
              line := [{ name := "a.c".toList, number := "1".toList,
                         content := "x".toList },
                       { name := "c.c".toList, number := "2".toList,
                         content := "y".toList }],
              alloc := 2, pipe := some ["./d.c:3:z\n".toList] }, true) :=
  ⟨by decide,
   (update_view_writes_in_capacity
      (startView 2 80 ["./a.c:1:x\n".toList, "Binary file ./b matches\n".toList,
        "./c.c:2:y\n".toList, "./d.c:3:z\n".toList])
      (by decide) (by decide) (by decide) (by decide)).1,
   (update_view_writes_in_capacity
      (startView 2 80 ["./a.c:1:x\n".toList, "Binary file ./b matches\n".toList,
        "./c.c:2:y\n".toList, "./d.c:3:z\n".toList])
      (by decide) (by decide) (by decide) (by decide)).2.1,
   ((update_view_writes_in_capacity
      (startView 2 80 ["./a.c:1:x\n".toList, "Binary file ./b matches\n".toList,
        "./c.c:2:y\n".toList, "./d.c:3:z\n".toList])
      (by decide) (by decide) (by decide) (by decide)).2.2.2.2
      ["./a.c:1:x\n".toList, "Binary file ./b matches\n".toList,
        "./c.c:2:y\n".toList, "./d.c:3:z\n".toList] rfl).2.2 (by decide) (by decide),
   by decide⟩

end Happygrep
